import Mathlib

/-!
Verification of the transcript-to-trace span compiler implemented in
`example_scripts/python/claude_code/keywordsai_hook.py`.

The Python program manipulates values obtained from `json.loads`; we embed
those values as the inductive type `JVal` (JSON numbers are embedded as
rationals, which contain all values `json.loads` can produce for numeric
literals).  Python `dict`s built by the program itself are embedded as
insertion-ordered association lists (`JObj`); the program only ever builds
dicts with string keys and without duplicates, and `jSet` mirrors Python's
in-place update semantics.  Operations that can raise a Python exception
(attribute access on a non-dict, `len` of a number, mixed-type arithmetic,
unhashable dict keys, ...) are embedded in the `Except PyErr` monad.
-/

inductive JVal where
  | null : JVal
  | bool : Bool → JVal
  | num : ℚ → JVal
  | str : String → JVal
  | arr : List JVal → JVal
  | obj : List (String × JVal) → JVal
deriving Repr

abbrev JObj := List (String × JVal)

/-- Kinds of Python exceptions the embedded code can raise. -/
inductive PyErr where
  | typeError : PyErr
  | attributeError : PyErr
deriving Repr, DecidableEq

/-- Lookup in an insertion-ordered dict (`o[k]` / `k in o`). -/
def jLookup (o : JObj) (k : String) : Option JVal :=
  (o.find? (fun p => p.1 == k)).map (fun p => p.2)

/-- Python `o.get(k, d)`. -/
def jGetD (o : JObj) (k : String) (d : JVal) : JVal :=
  (jLookup o k).getD d

/-- Python `o.get(k)` (default `None`). -/
def jPyGet (o : JObj) (k : String) : JVal :=
  jGetD o k JVal.null

/-- Python `k in o` for a dict. -/
def jHasKey (o : JObj) (k : String) : Bool :=
  (jLookup o k).isSome

/-- Python `o[k] = v`: replace in place if the key exists, else append. -/
def jSet (o : JObj) (k : String) (v : JVal) : JObj :=
  if jHasKey o k then o.map (fun p => if p.1 == k then (p.1, v) else p)
  else o ++ [(k, v)]

/-- Python truthiness of a JSON value. -/
def pyTruthy : JVal → Bool
  | .null => false
  | .bool b => b
  | .num q => !(q == 0)
  | .str s => !(s == "")
  | .arr xs => !xs.isEmpty
  | .obj o => !o.isEmpty

/-- Python truthiness of an optional value (`None` is falsy). -/
def pyTruthyOpt : Option JVal → Bool
  | none => false
  | some v => pyTruthy v

/-- Numeric view used by Python arithmetic (`bool` is an `int`). -/
def pyToQ : JVal → Option ℚ
  | .bool b => some (if b then 1 else 0)
  | .num q => some q
  | _ => none

mutual

/-- Python `==` on values produced by `json.loads` (dict comparison is by
key lookup, since JSON object keys are strings). -/
def pyEq : JVal → JVal → Bool
  | .null, .null => true
  | .bool a, .bool b => a == b
  | .bool a, .num q => (if a then (1 : ℚ) else 0) == q
  | .num q, .bool b => q == (if b then (1 : ℚ) else 0)
  | .num a, .num b => a == b
  | .str a, .str b => a == b
  | .arr a, .arr b => pyEqList a b
  | .obj a, .obj b => Nat.beq a.length b.length && pyEqObjSub a b
  | _, _ => false

def pyEqList : List JVal → List JVal → Bool
  | [], [] => true
  | x :: xs, y :: ys => pyEq x y && pyEqList xs ys
  | _, _ => false

/-- Every entry of the first dict is matched by an equal entry of the second. -/
def pyEqObjSub : JObj → JObj → Bool
  | [], _ => true
  | (k, v) :: rest, b =>
    (match jLookup b k with
     | some w => pyEq v w
     | none => false) && pyEqObjSub rest b

end

/-- Python `len` (raises `TypeError` on numbers, booleans and `None`). -/
def pyLen : JVal → Except PyErr Nat
  | .str s => .ok s.length
  | .arr xs => .ok xs.length
  | .obj o => .ok o.length
  | _ => .error .typeError

/-- Python `+` restricted to the value shapes `json.loads` can produce. -/
def pyAdd : JVal → JVal → Except PyErr JVal
  | .str a, .str b => .ok (.str (a ++ b))
  | .arr a, .arr b => .ok (.arr (a ++ b))
  | a, b =>
    match pyToQ a, pyToQ b with
    | some x, some y => .ok (.num (x + y))
    | _, _ => .error .typeError

/-- Python `v > 0` (raises `TypeError` for non-numeric `v`). -/
def pyGtZero (v : JVal) : Except PyErr Bool :=
  match pyToQ v with
  | some q => .ok (decide (0 < q))
  | none => .error .typeError

/-- Whether a value may be used as a dict key (lists and dicts are unhashable). -/
def jHashable : JVal → Bool
  | .arr _ => false
  | .obj _ => false
  | _ => true

/-- Python `a or b` on values. -/
def pyOr (a b : JVal) : JVal :=
  if pyTruthy a then a else b

/-- `None`-defaulted view of an optional slot of a dict built by the program. -/
def optNull : Option JVal → JVal
  | none => .null
  | some v => v

/-- Decimal rendering of a rational whose denominator divides a power of ten
(the only non-integer rationals reachable from the embedded arithmetic). -/
def qStr (q : ℚ) : String :=
  if q.den = 1 then toString q.num
  else
    match (List.range 61).find? (fun k => 10 ^ k % q.den == 0) with
    | some k =>
      let digits : ℕ := q.num.natAbs * (10 ^ k / q.den)
      let ip := digits / 10 ^ k
      let fp := digits % 10 ^ k
      let fpStr := toString fp
      let pad := String.mk (List.replicate (k - fpStr.length) '0')
      (if q.num < 0 then "-" else "") ++ toString ip ++ "." ++ pad ++ fpStr
    | none => toString q.num ++ "/" ++ toString q.den

def hexDigit (n : Nat) : Char :=
  if n < 10 then Char.ofNat (48 + n) else Char.ofNat (87 + n)

/-- JSON escaping of one character, as `json.dumps` performs it. -/
def jsonEscChar (c : Char) : String :=
  if c == '"' then "\\\""
  else if c == '\\' then "\\\\"
  else if c == '\n' then "\\n"
  else if c == '\t' then "\\t"
  else if c == '\r' then "\\r"
  else if c.toNat < 32 then
    "\\u00" ++ String.mk [hexDigit (c.toNat / 16), hexDigit (c.toNat % 16)]
  else String.singleton c

def jsonEscStr (s : String) : String :=
  String.join (s.toList.map jsonEscChar)

mutual

/-- `json.dumps(v)` with the default compact separators. -/
def jsonDumps : JVal → String
  | .null => "null"
  | .bool true => "true"
  | .bool false => "false"
  | .num q => qStr q
  | .str s => "\"" ++ jsonEscStr s ++ "\""
  | .arr xs => "[" ++ jsonDumpsList xs ++ "]"
  | .obj o => "\x7b" ++ jsonDumpsObj o ++ "\x7d"

def jsonDumpsList : List JVal → String
  | [] => ""
  | [x] => jsonDumps x
  | x :: y :: rest => jsonDumps x ++ ", " ++ jsonDumpsList (y :: rest)

def jsonDumpsObj : JObj → String
  | [] => ""
  | [(k, v)] => "\"" ++ jsonEscStr k ++ "\": " ++ jsonDumps v
  | (k, v) :: p :: rest =>
    "\"" ++ jsonEscStr k ++ "\": " ++ jsonDumps v ++ ", " ++ jsonDumpsObj (p :: rest)

end

def indentStr (n : Nat) : String :=
  String.mk (List.replicate n ' ')

mutual

/-- `json.dumps(v, indent=2)`; `lvl` is the current indentation level. -/
def jsonDumpsIdt (lvl : Nat) : JVal → String
  | .null => "null"
  | .bool true => "true"
  | .bool false => "false"
  | .num q => qStr q
  | .str s => "\"" ++ jsonEscStr s ++ "\""
  | .arr [] => "[]"
  | .arr (x :: xs) =>
    "[\n" ++ jsonDumpsIdtList (lvl + 2) (x :: xs) ++ "\n" ++ indentStr lvl ++ "]"
  | .obj [] => "\x7b\x7d"
  | .obj (p :: ps) =>
    "\x7b\n" ++ jsonDumpsIdtObj (lvl + 2) (p :: ps) ++ "\n" ++ indentStr lvl ++ "\x7d"

def jsonDumpsIdtList (lvl : Nat) : List JVal → String
  | [] => ""
  | [x] => indentStr lvl ++ jsonDumpsIdt lvl x
  | x :: y :: rest =>
    indentStr lvl ++ jsonDumpsIdt lvl x ++ ",\n" ++ jsonDumpsIdtList lvl (y :: rest)

def jsonDumpsIdtObj (lvl : Nat) : JObj → String
  | [] => ""
  | [(k, v)] => indentStr lvl ++ "\"" ++ jsonEscStr k ++ "\": " ++ jsonDumpsIdt lvl v
  | (k, v) :: p :: rest =>
    indentStr lvl ++ "\"" ++ jsonEscStr k ++ "\": " ++ jsonDumpsIdt lvl v ++ ",\n" ++
      jsonDumpsIdtObj lvl (p :: rest)

end

mutual

/-- Python `repr` of a value produced by `json.loads`. -/
def pyRepr : JVal → String
  | .null => "None"
  | .bool true => "True"
  | .bool false => "False"
  | .num q => qStr q
  | .str s => "'" ++ s ++ "'"
  | .arr xs => "[" ++ pyReprList xs ++ "]"
  | .obj o => "\x7b" ++ pyReprObj o ++ "\x7d"

def pyReprList : List JVal → String
  | [] => ""
  | [x] => pyRepr x
  | x :: y :: rest => pyRepr x ++ ", " ++ pyReprList (y :: rest)

def pyReprObj : JObj → String
  | [] => ""
  | [(k, v)] => "'" ++ k ++ "': " ++ pyRepr v
  | (k, v) :: p :: rest => "'" ++ k ++ "': " ++ pyRepr v ++ ", " ++ pyReprObj (p :: rest)

end

/-- Python `str` of a value produced by `json.loads`. -/
def pyStr : JVal → String
  | .str s => s
  | v => pyRepr v

/-- Python string slice `s[:n]`. -/
def strTake (s : String) (n : Nat) : String :=
  String.mk (s.toList.take n)

/-! ### Helper functions of the hook script (source lines 58-142) -/

/-- `get_content` (source lines 58-64): extract content from a message.
Raises `AttributeError` when `msg["message"]` is not a dict (`.get` on it). -/
def get_content (msg : JVal) : Except PyErr JVal :=
  match msg with
  | .obj o =>
    match jLookup o "message" with
    | some (.obj m) => .ok (jPyGet m "content")
    | some _ => .error .attributeError
    | none => .ok (jPyGet o "content")
  | _ => .ok .null

/-- `is_tool_result` (source lines 67-75). -/
def is_tool_result (msg : JVal) : Except PyErr Bool := do
  let content ← get_content msg
  match content with
  | .arr items =>
    .ok (items.any (fun item =>
      match item with
      | .obj o => pyEq (jPyGet o "type") (.str "tool_result")
      | _ => false))
  | _ => .ok false

/-- `get_tool_calls` (source lines 78-86): the `tool_use` blocks of a message.
The returned items are known to be dicts thanks to the `isinstance` filter. -/
def get_tool_calls (msg : JVal) : Except PyErr (List JObj) := do
  let content ← get_content msg
  match content with
  | .arr items =>
    .ok (items.filterMap (fun item =>
      match item with
      | .obj o => if pyEq (jPyGet o "type") (.str "tool_use") then some o else none
      | _ => none))
  | _ => .ok []

/-- One step of the `text_parts` accumulation in `get_text_content`:
text blocks contribute `item.get("text", "")` (any value), plain strings
contribute themselves, everything else is skipped. -/
def textParts (items : List JVal) : List JVal :=
  items.filterMap (fun item =>
    match item with
    | .obj o =>
      if pyEq (jPyGet o "type") (.str "text") then some (jGetD o "text" (.str ""))
      else none
    | .str s => some (.str s)
    | _ => none)

/-- `"\n".join(parts)`: raises `TypeError` unless every part is a string. -/
def pyJoinNl : List JVal → Except PyErr String
  | [] => .ok ""
  | [.str s] => .ok s
  | .str s :: p :: rest => do
    let tail ← pyJoinNl (p :: rest)
    .ok (s ++ "\n" ++ tail)
  | _ => .error .typeError

/-- `get_text_content` (source lines 89-102). -/
def get_text_content (msg : JVal) : Except PyErr String := do
  let content ← get_content msg
  match content with
  | .str s => .ok s
  | .arr items => pyJoinNl (textParts items)
  | _ => .ok ""

/-- Python `v[:n] + suffix` where `v` came from a dict field: defined for
strings, raises `TypeError` otherwise (list/dict slicing then `+ str`,
subscripting a number). -/
def sliceConcat (v : JVal) (n : Nat) (suffix : String) : Except PyErr JVal :=
  match v with
  | .str s => .ok (.str (strTake s n ++ suffix))
  | _ => .error .typeError

/-- `format_tool_input` (source lines 105-141). -/
def format_tool_input (tool_name : JVal) (tool_input : JVal) (max_length : Nat) :
    Except PyErr String :=
  if !pyTruthy tool_input then .ok ""
  else
    let dumpDefault : Except PyErr String :=
      -- values produced by `json.loads` are always serializable, so the
      -- `except (TypeError, ValueError)` branch of the source is unreachable
      let result := jsonDumpsIdt 0 tool_input
      if result.length > max_length then
        .ok (strTake result max_length ++ "\n... (truncated)")
      else .ok result
    let isWriteLike :=
      pyEq tool_name (.str "Write") || pyEq tool_name (.str "Edit") ||
        pyEq tool_name (.str "MultiEdit")
    let isReadName := pyEq tool_name (.str "Read")
    let isBashLike := pyEq tool_name (.str "Bash") || pyEq tool_name (.str "Shell")
    match tool_input with
    | .obj o =>
      if isWriteLike then do
        let file_path := jGetD o "file_path" (jGetD o "path" (.str ""))
        let content := jGetD o "content" (.str "")
        let head := "File: " ++ pyStr file_path ++ "\n"
        if pyTruthy content then do
          let n ← pyLen content
          let preview ←
            if n > 2000 then sliceConcat content 2000 "..."
            else .ok content
          .ok (strTake (head ++ "Content:\n" ++ pyStr preview) max_length)
        else .ok (strTake head max_length)
      else if isReadName then
        .ok ("File: " ++ pyStr (jGetD o "file_path" (jGetD o "path" (.str ""))))
      else if isBashLike then
        .ok ("Command: " ++ pyStr (jGetD o "command" (.str "")))
      else dumpDefault
    | _ => dumpDefault

/-- The list-of-blocks loop of `format_tool_output` (source lines 156-189).
`total` is `total_length`, `parts` the accumulated parts; a budget overflow
breaks out of the loop. -/
def ftoList (max_length : Nat) : List JVal → Nat → List JVal →
    Except PyErr (List JVal)
  | [], _, parts => .ok parts
  | item :: rest, total, parts =>
    match item with
    | .obj o =>
      if pyEq (jPyGet o "type") (.str "text") then do
        let text := jGetD o "text" (.str "")
        let n ← pyLen text
        if total + n > max_length then
          let remaining := max_length - total
          if remaining > 100 then do
            let t ← sliceConcat text remaining "... (truncated)"
            .ok (parts ++ [t])
          else .ok parts
        else ftoList max_length rest (total + n) (parts ++ [text])
      else if pyEq (jPyGet o "type") (.str "image") then
        ftoList max_length rest total (parts ++ [.str "[Image output]"])
      else
        let t := strTake (pyStr item) 500
        ftoList max_length rest (total + t.length) (parts ++ [.str t])
    | .str s =>
      if total + s.length > max_length then
        let remaining := max_length - total
        if remaining > 100 then
          .ok (parts ++ [.str (strTake s remaining ++ "... (truncated)")])
        else .ok parts
      else ftoList max_length rest (total + s.length) (parts ++ [.str s])
    | _ => ftoList max_length rest total parts

/-- `format_tool_output` (source lines 144-206). -/
def format_tool_output (_tool_name : JVal) (tool_output : JVal) (max_length : Nat) :
    Except PyErr String :=
  if !pyTruthy tool_output then .ok ""
  else
    match tool_output with
    | .str s =>
      if s.length > max_length then .ok (strTake s max_length ++ "\n... (truncated)")
      else .ok s
    | .arr items => do
      let parts ← ftoList max_length items 0 []
      pyJoinNl parts
    | .obj o =>
      if jHasKey o "success" then
        .ok ("Success: " ++ pyStr (jPyGet o "success") ++ "\n" ++
          pyStr (jGetD o "message" (.str "")))
      else
        let result := jsonDumpsIdt 0 (.obj o)
        if result.length > max_length then
          .ok (strTake result max_length ++ "\n... (truncated)")
        else .ok result
    | v => .ok (strTake (pyStr v) max_length)

/-- The `merged_content` accumulation of `merge_assistant_parts`
(source lines 214-220). -/
def mergedContent : List JVal → Except PyErr (List JVal)
  | [] => .ok []
  | part :: rest => do
    let content ← get_content part
    let tail ← mergedContent rest
    match content with
    | .arr xs => .ok (xs ++ tail)
    | c =>
      if pyTruthy c then
        .ok (.obj [("type", .str "text"), ("text", .str (pyStr c))] :: tail)
      else .ok tail

/-- `merge_assistant_parts` (source lines 209-230). -/
def merge_assistant_parts (parts : List JVal) : Except PyErr JVal :=
  match parts with
  | [] => .ok (.obj [])
  | first :: _ => do
    let merged ← mergedContent parts
    match first with
    | .obj o =>
      match jLookup o "message" with
      | some (.obj m) =>
        .ok (.obj (jSet o "message" (.obj (jSet m "content" (.arr merged)))))
      | some _ =>
        -- `result["message"].copy()` on a non-dict raises
        .error .attributeError
      | none => .ok (.obj (jSet o "content" (.arr merged)))
    | _ =>
      -- `.copy()` on a non-dict message, or item assignment on the copy,
      -- raises for every other shape `json.loads` can produce
      .error .attributeError

/-- `parse_timestamp` (source lines 277-285), parameterized by the external
`datetime.fromisoformat` (`iso`), returning seconds since the epoch.  A
non-string argument raises `AttributeError`, which the source catches and
converts to `None`. -/
def parse_timestamp (iso : String → Option ℚ) (ts : JVal) : Option ℚ :=
  match ts with
  | .str s =>
    let s1 := if s.endsWith "Z" then strTake s (s.length - 1) ++ "+00:00" else s
    iso (s1.replace "Z" "+00:00")
  | _ => none

/-! ### The span compiler `create_keywordsai_spans` (source lines 288-534) -/

/-- The metadata extracted from the first assistant message
(source lines 310-325); defaults apply when the guard of line 318 fails. -/
structure FirstInfo where
  model : JVal
  usage : JVal
  request_id : JVal
  stop_reason : JVal
  assistant_timestamp : JVal
deriving Repr

def firstInfoDefault : FirstInfo :=
  ⟨.str "claude", .null, .null, .null, .null⟩

/-- Source lines 310-325: `first_assistant_msg and isinstance(...) and
"message" in first_assistant_msg`, then field extraction from
`first_assistant_msg["message"]` (raises when that value is not a dict). -/
def firstAssistantInfo : Option JVal → Except PyErr FirstInfo
  | none => .ok firstInfoDefault
  | some fa =>
    if pyTruthy fa then
      match fa with
      | .obj o =>
        match jLookup o "message" with
        | some (.obj m) =>
          .ok ⟨jGetD m "model" (.str "claude"), jPyGet m "usage",
            jPyGet m "requestId", jPyGet m "stop_reason", jPyGet o "timestamp"⟩
        | some _ => .error .attributeError
        | none => .ok firstInfoDefault
      | _ => .ok firstInfoDefault
    else .ok firstInfoDefault

/-- Source lines 363-389: build `usage_obj` and extend `metadata` with the
service tier.  A truthy non-dict `usage` raises (`usage.get`); ill-typed
token counts raise at `+` or `> 0`. -/
def buildUsage (usage : JVal) (metadata : JObj) : Except PyErr (Option JObj × JObj) :=
  if !pyTruthy usage then .ok (none, metadata)
  else
    match usage with
    | .obj u => do
      let pt := jGetD u "input_tokens" (.num 0)
      let ct := jGetD u "output_tokens" (.num 0)
      let uo : JObj := [("prompt_tokens", pt), ("completion_tokens", ct)]
      let total ← pyAdd pt ct
      let tPos ← pyGtZero total
      let uo := if tPos then jSet uo "total_tokens" total else uo
      let cache_creation := jGetD u "cache_creation_input_tokens" (.num 0)
      let cache_read := jGetD u "cache_read_input_tokens" (.num 0)
      let ccPos ← pyGtZero cache_creation
      let ptd : JObj := if ccPos then [("cache_creation_tokens", cache_creation)] else []
      let uo := if ccPos then jSet uo "cache_creation_prompt_tokens" cache_creation else uo
      let crPos ← pyGtZero cache_read
      let ptd := if crPos then jSet ptd "cached_tokens" cache_read else ptd
      let uo := if !ptd.isEmpty then jSet uo "prompt_tokens_details" (.obj ptd) else uo
      let service_tier := jPyGet u "service_tier"
      let md := if pyTruthy service_tier then jSet metadata "service_tier" service_tier
        else metadata
      .ok (some uo, md)
    | _ => .error .attributeError

/-- Shared naming and timing context for the child spans of one turn. -/
structure SpanCtx where
  trace_unique_id : String
  chat_span_id : String
  workflow_name : String
  turn_num : Nat
  timestamp_str : JVal
  start_time_str : JVal
deriving Repr

/-- The span dict of source lines 440-451 for one thinking block. -/
def thinkSpanObj (ctx : SpanCtx) (think_ts : JVal) (idx : Nat)
    (thinking_text : JVal) : JObj :=
  [("trace_unique_id", .str ctx.trace_unique_id),
   ("span_unique_id", .str ("turn_" ++ toString ctx.turn_num ++
     "_thinking_" ++ toString idx)),
   ("span_parent_id", .str ctx.chat_span_id),
   ("span_name", .str ("Thinking " ++ toString idx)),
   ("span_workflow_name", .str ctx.workflow_name),
   ("log_type", .str "generation"),
   ("input", .str ""),
   ("output", thinking_text),
   ("timestamp", think_ts),
   ("start_time", think_ts)]

/-- The inner loop of the thinking-span pass (source lines 433-451): scan one
content list, appending a span per truthy `thinking` block. -/
def thinkingFromContent (ctx : SpanCtx) (think_ts : JVal) :
    List JVal → List JObj → List JObj
  | [], acc => acc
  | item :: rest, acc =>
    match item with
    | .obj o =>
      if pyEq (jPyGet o "type") (.str "thinking") then
        let thinking_text := jGetD o "thinking" (.str "")
        if pyTruthy thinking_text then
          thinkingFromContent ctx think_ts rest
            (acc ++ [thinkSpanObj ctx think_ts (acc.length + 1) thinking_text])
        else thinkingFromContent ctx think_ts rest acc
      else thinkingFromContent ctx think_ts rest acc
    | _ => thinkingFromContent ctx think_ts rest acc

/-- The thinking-span pass (source lines 429-453): one span per truthy
`thinking` block across all assistant messages, in encounter order. -/
def thinkingSpans (ctx : SpanCtx) : List JVal → List JObj → Except PyErr (List JObj)
  | [], acc => .ok acc
  | am :: rest, acc =>
    match am with
    | .obj o =>
      match jLookup o "message" with
      | some (.obj mo) =>
        let think_ts := jGetD o "timestamp" ctx.timestamp_str
        match jGetD mo "content" (.arr []) with
        | .arr items => thinkingSpans ctx rest (thinkingFromContent ctx think_ts items acc)
        | _ => thinkingSpans ctx rest acc
      | some _ => .error .attributeError
      | none => thinkingSpans ctx rest acc
    | _ => thinkingSpans ctx rest acc

/-- One entry of `tool_call_map` (source lines 463-468 plus the update of
lines 493-495). -/
structure ToolData where
  name : JVal
  input : JVal
  tid : JVal
  timestamp : JVal
  output : Option JVal
  result_metadata : Option JObj
  result_timestamp : Option JVal
deriving Repr

abbrev ToolMap := List (JVal × ToolData)

def tmHasKey (m : ToolMap) (k : JVal) : Bool :=
  m.any (fun p => pyEq p.1 k)

/-- Python dict assignment on `tool_call_map`: replace in place or append. -/
def tmSet (m : ToolMap) (k : JVal) (v : ToolData) : ToolMap :=
  if tmHasKey m k then m.map (fun p => if pyEq p.1 k then (p.1, v) else p)
  else m ++ [(k, v)]

def tmUpdate (m : ToolMap) (k : JVal) (f : ToolData → ToolData) : ToolMap :=
  m.map (fun p => if pyEq p.1 k then (p.1, f p.2) else p)

/-- Source lines 459-468: register one tool-use block in the map; a key that
is unhashable (a list or dict) raises `TypeError`. -/
def addOneToolCall (am_ts : JVal) (acc : ToolMap) (tc : JObj) : Except PyErr ToolMap :=
  let tool_id := jGetD tc "id" (.str "")
  if jHashable tool_id then
    .ok (tmSet acc tool_id
      ⟨jGetD tc "name" (.str "unknown"), jGetD tc "input" (.obj []),
        tool_id, am_ts, none, none, none⟩)
  else .error .typeError

/-- Source lines 457-468: collect the tool calls of one assistant message
into the map. -/
def addToolCallsOf (m : ToolMap) (am : JVal) : Except PyErr ToolMap := do
  let tcs ← get_tool_calls am
  let am_ts : JVal := match am with | .obj o => jPyGet o "timestamp" | _ => .null
  tcs.foldlM (addOneToolCall am_ts) m

/-- Source lines 476-486: the per-record tool-result metadata dict.  A truthy
`toolUseResult` that is not a container raises at the `in` test; a non-dict
container raises at the string-keyed subscript once a field name is found. -/
def resultMetadataOf (tr : JVal) : Except PyErr JObj :=
  match tr with
  | .obj o =>
    let tur := jGetD o "toolUseResult" (.obj [])
    if !pyTruthy tur then .ok []
    else
      match tur with
      | .obj t =>
        let md : JObj := if jHasKey t "durationMs" then
            [("duration_ms", jPyGet t "durationMs")] else []
        let md := if jHasKey t "numFiles" then jSet md "num_files" (jPyGet t "numFiles")
          else md
        let md := if jHasKey t "filenames" then jSet md "filenames" (jPyGet t "filenames")
          else md
        let md := if jHasKey t "truncated" then jSet md "truncated" (jPyGet t "truncated")
          else md
        .ok md
      | .arr xs =>
        if xs.any (fun x => pyEq (.str "durationMs") x) then .error .typeError
        else if xs.any (fun x => pyEq (.str "numFiles") x) then .error .typeError
        else if xs.any (fun x => pyEq (.str "filenames") x) then .error .typeError
        else if xs.any (fun x => pyEq (.str "truncated") x) then .error .typeError
        else .ok []
      | .str s =>
        if decide (List.IsInfix "durationMs".toList s.toList) then .error .typeError
        else if decide (List.IsInfix "numFiles".toList s.toList) then .error .typeError
        else if decide (List.IsInfix "filenames".toList s.toList) then .error .typeError
        else if decide (List.IsInfix "truncated".toList s.toList) then .error .typeError
        else .ok []
      | _ => .error .typeError
  | _ => .ok []

/-- `tr.get("timestamp")`; only evaluated when `tr` is a dict. -/
def trTimestamp (tr : JVal) : JVal :=
  match tr with
  | .obj o => jPyGet o "timestamp"
  | _ => .null

/-- The update of source lines 493-495: attach a matched block's content and
the record's metadata and timestamp to a map entry. -/
def resUpd (md : JObj) (tr : JVal) (o : JObj) (td : ToolData) : ToolData :=
  { td with
    output := some (jPyGet o "content")
    result_metadata := some md
    result_timestamp := some (trTimestamp tr) }

/-- Source lines 489-495: process one block of a tool-result record's content
list.  An unhashable `tool_use_id` raises at the membership test. -/
def applyResultItem (md : JObj) (tr : JVal) (acc : ToolMap) (item : JVal) :
    Except PyErr ToolMap :=
  match item with
  | .obj o =>
    if pyEq (jPyGet o "type") (.str "tool_result") then
      let tool_use_id := jPyGet o "tool_use_id"
      if jHashable tool_use_id then
        if tmHasKey acc tool_use_id then
          .ok (tmUpdate acc tool_use_id (resUpd md tr o))
        else .ok acc
      else .error .typeError
    else .ok acc
  | _ => .ok acc

/-- Source lines 471-495: correlate one tool-result record with the map. -/
def applyResult (m : ToolMap) (tr : JVal) : Except PyErr ToolMap := do
  let tr_content ← get_content tr
  let md ← resultMetadataOf tr
  match tr_content with
  | .arr items => items.foldlM (applyResultItem md tr) m
  | _ => .ok m

/-- Whether one content block is a `tool_result` block whose `tool_use_id`
correlates (by Python equality, as the map uses it) with the stored key `t`;
if so, the block itself. -/
def blockFor (t : JVal) (item : JVal) : Option JObj :=
  match item with
  | .obj o =>
    if pyEq (jPyGet o "type") (.str "tool_result") &&
        pyEq t (jPyGet o "tool_use_id") then some o
    else none
  | _ => none

/-- The last block of one tool-result record that correlates with key `t`
(later blocks overwrite earlier ones in the source's scan). -/
def lastMatchIn (t : JVal) (tr : JVal) : Option JObj :=
  match get_content tr with
  | .ok (.arr items) =>
    items.foldl (fun acc item =>
      match blockFor t item with
      | some o => some o
      | none => acc) none
  | _ => none

/-- Across the whole turn's tool-result records, the record and block whose
content the scan of source lines 471-495 leaves attached to key `t`:
the last correlating block of the last record containing one. -/
def lastResultFor (t : JVal) (trs : List JVal) : Option (JVal × JObj) :=
  trs.foldl (fun acc tr =>
    match lastMatchIn t tr with
    | some o => some (tr, o)
    | none => acc) none

/-- Source lines 497-532: build one tool span from a map entry. -/
def toolSpanOf (ctx : SpanCtx) (tool_num : Nat) (td : ToolData) :
    Except PyErr JObj := do
  let tool_timestamp := pyOr (optNull td.result_timestamp)
    (pyOr td.timestamp ctx.timestamp_str)
  let tool_start_time := pyOr td.timestamp ctx.start_time_str
  let formatted_input ← format_tool_input td.name td.input 4000
  let formatted_output ← format_tool_output td.name (optNull td.output) 4000
  let span : JObj := [("trace_unique_id", .str ctx.trace_unique_id),
    ("span_unique_id", .str ("turn_" ++ toString ctx.turn_num ++ "_tool_" ++
      toString tool_num)),
    ("span_parent_id", .str ctx.chat_span_id),
    ("span_name", .str ("Tool: " ++ pyStr td.name)),
    ("span_workflow_name", .str ctx.workflow_name),
    ("log_type", .str "tool"),
    ("input", .str formatted_input),
    ("output", .str formatted_output),
    ("timestamp", tool_timestamp),
    ("start_time", tool_start_time)]
  match td.result_metadata with
  | some md =>
    if !md.isEmpty then do
      let span := jSet span "metadata" (.obj md)
      let duration_ms := jPyGet md "duration_ms"
      if pyTruthy duration_ms then
        match pyToQ duration_ms with
        | some q => .ok (jSet span "latency" (.num (q / 1000)))
        | none => .error .typeError
      else .ok span
    else .ok span
  | none => .ok span

/-- Source lines 497-532: the tool-span loop, numbering spans from 1 in map
order. -/
def toolSpans (ctx : SpanCtx) : ToolMap → Nat → List JObj → Except PyErr (List JObj)
  | [], _, acc => .ok acc
  | (_, td) :: rest, n, acc => do
    let sp ← toolSpanOf ctx (n + 1) td
    toolSpans ctx rest (n + 1) (acc ++ [sp])

/-- Source lines 411-420: copy the usage fields onto the chat span. -/
def applyUsageFields (c : JObj) : Option JObj → JObj
  | none => c
  | some uo =>
    let c := jSet c "prompt_tokens" (jPyGet uo "prompt_tokens")
    let c := jSet c "completion_tokens" (jPyGet uo "completion_tokens")
    let c := if jHasKey uo "total_tokens" then
        jSet c "total_tokens" (jPyGet uo "total_tokens") else c
    let c := if jHasKey uo "cache_creation_prompt_tokens" then
        jSet c "cache_creation_prompt_tokens" (jPyGet uo "cache_creation_prompt_tokens")
      else c
    if jHasKey uo "prompt_tokens_details" then
      jSet c "prompt_tokens_details" (jPyGet uo "prompt_tokens_details")
    else c

/-- Source lines 422-424: attach the computed latency to the chat span. -/
def applyLatencyField (c : JObj) : Option ℚ → JObj
  | none => c
  | some l => jSet c "latency" (.num l)

/-- `user_msg.get("timestamp")` (source line 300): raises on a non-dict. -/
def userTimestampOf (user_msg : JVal) : Except PyErr JVal :=
  match user_msg with
  | .obj o => .ok (jPyGet o "timestamp")
  | _ => .error .attributeError

/-- Source lines 304-307: the text of the last assistant message, or `""`
when there is none. -/
def finalOutputOf (assistant_msgs : List JVal) : Except PyErr String :=
  match assistant_msgs.getLast? with
  | some la => get_text_content la
  | none => .ok ""

/-- `create_keywordsai_spans` (source lines 288-534).  `iso` models
`datetime.fromisoformat`, `now` the current-time fallback string. -/
def create_keywordsai_spans (iso : String → Option ℚ) (now : String)
    (session_id : String) (turn_num : Nat) (user_msg : JVal)
    (assistant_msgs : List JVal) (tool_results : List JVal) :
    Except PyErr (List JObj) := do
  let user_text ← get_text_content user_msg
  let user_timestamp ← userTimestampOf user_msg
  let user_time := if pyTruthy user_timestamp then parse_timestamp iso user_timestamp
    else none
  let final_output ← finalOutputOf assistant_msgs
  let fi ← firstAssistantInfo assistant_msgs.head?
  let assistant_time := if pyTruthy fi.assistant_timestamp then
      parse_timestamp iso fi.assistant_timestamp
    else none
  let nowJ : JVal := .str now
  let start_time_str := if pyTruthy user_timestamp then user_timestamp
    else if pyTruthy fi.assistant_timestamp then fi.assistant_timestamp else nowJ
  let timestamp_str := if pyTruthy fi.assistant_timestamp then fi.assistant_timestamp
    else nowJ
  let latency : Option ℚ :=
    match user_time, assistant_time with
    | some u, some a => some (a - u)
    | _, _ => none
  let prompt_messages : List JVal :=
    if user_text ≠ "" then [.obj [("role", .str "user"), ("content", .str user_text)]]
    else []
  let completion_message : JVal :=
    if final_output ≠ "" then .obj [("role", .str "assistant"), ("content", .str final_output)]
    else .null
  let trace_unique_id := session_id ++ "_turn_" ++ toString turn_num
  let workflow_name := "claudecode_" ++ session_id
  let root_span_name := "claudecode_" ++ trace_unique_id
  let thread_id := workflow_name
  let metadata : JObj := [("claude_code_turn", .num turn_num)]
  let metadata := if pyTruthy fi.request_id then jSet metadata "request_id" fi.request_id
    else metadata
  let metadata := if pyTruthy fi.stop_reason then jSet metadata "stop_reason" fi.stop_reason
    else metadata
  let (usage_obj, metadata) ← buildUsage fi.usage metadata
  let chat_span_id := "turn_" ++ toString turn_num ++ "_chat"
  let chat_span : JObj := [("trace_unique_id", .str trace_unique_id),
    ("thread_identifier", .str thread_id),
    ("span_unique_id", .str chat_span_id),
    ("span_parent_id", .null),
    ("span_name", .str root_span_name),
    ("span_workflow_name", .str workflow_name),
    ("log_type", .str "agent"),
    ("input", .str (if !prompt_messages.isEmpty then jsonDumps (.arr prompt_messages) else "")),
    ("output", .str (if pyTruthy completion_message then jsonDumps completion_message else "")),
    ("prompt_messages", .arr prompt_messages),
    ("completion_message", completion_message),
    ("model", fi.model),
    ("timestamp", timestamp_str),
    ("start_time", start_time_str),
    ("metadata", .obj metadata)]
  let chat_span := applyUsageFields chat_span usage_obj
  let chat_span := applyLatencyField chat_span latency
  let ctx : SpanCtx :=
    ⟨trace_unique_id, chat_span_id, workflow_name, turn_num, timestamp_str, start_time_str⟩
  let think_spans ← thinkingSpans ctx assistant_msgs []
  let tool_call_map ← assistant_msgs.foldlM addToolCallsOf []
  let tool_call_map ← tool_results.foldlM applyResult tool_call_map
  let tspans ← toolSpans ctx tool_call_map 0 []
  .ok (chat_span :: (think_spans ++ tspans))

/-! ### The incremental processor `process_transcript` (source lines 537-676) -/

/-- One line of the transcript file, with its parse status: blank after
stripping, unparseable JSON, or a parsed value.  This embeds
`transcript_file.read_text().strip().split("\n")` together with the
per-line `json.loads` of source lines 560-566. -/
inductive PLine where
  | blank : PLine
  | bad : PLine
  | msg : JVal → PLine
deriving Repr

/-- The per-session record persisted by `save_state` (source lines 669-673).
The program only ever writes a non-negative line count and turn count, so the
stored fields are embedded as naturals. -/
structure SessionState where
  last_line : Nat
  turn_count : Nat
  updated : String
deriving Repr, DecidableEq

/-- One outbound `POST {base_url}/v1/traces/ingest` (source lines 604-614 and
656-666): the turn number, the span batch sent, and whether the request
succeeded.  The source catches every exception of the emission, so success
only affects logging. -/
structure Emission where
  turn_num : Nat
  spans : List JObj
  ok : Bool
deriving Repr

/-- The mutable locals of the turn-grouping loop (source lines 574-579). -/
structure AsmState where
  turns_processed : Nat
  current_user : Option JVal
  current_assistants : List JVal
  current_assistant_parts : List JVal
  current_msg_id : JVal
  current_tool_results : List JVal
  emissions : List Emission
deriving Repr

def asmStart : AsmState :=
  ⟨0, none, [], [], .null, [], []⟩

/-- `role = msg.get("type") or (msg.get("message", {}).get("role"))`
(source line 582). -/
def getRole (msg : JVal) : Except PyErr JVal :=
  match msg with
  | .obj o =>
    let t := jPyGet o "type"
    if pyTruthy t then .ok t
    else
      match jGetD o "message" (.obj []) with
      | .obj m => .ok (jPyGet m "role")
      | _ => .error .attributeError
  | _ => .error .attributeError

/-- Source lines 591-595 / 636-638 / 645-647: merge the pending assistant
parts into the turn's assistant list when an identified message is open. -/
def finalizeAssistants (s : AsmState) : Except PyErr (List JVal) :=
  if pyTruthy s.current_msg_id && !s.current_assistant_parts.isEmpty then do
    let merged ← merge_assistant_parts s.current_assistant_parts
    .ok (s.current_assistants ++ [merged])
  else .ok s.current_assistants

/-- Everything `process_transcript` needs besides the loop state. -/
structure RunCtx where
  iso : String → Option ℚ
  now : String
  emitOk : Nat → Bool
  session_id : String
  turn_count : Nat

/-- Compile and emit one completed turn (source lines 597-614 and 649-666). -/
def emitTurn (ctx : RunCtx) (tp : Nat) (user : JVal) (assts : List JVal)
    (trs : List JVal) (ems : List Emission) : Except PyErr (Nat × List Emission) := do
  let turn_num := ctx.turn_count + (tp + 1)
  let spans ← create_keywordsai_spans ctx.iso ctx.now ctx.session_id turn_num
    user assts trs
  .ok (tp + 1, ems ++ [⟨turn_num, spans, ctx.emitOk turn_num⟩])

/-- Source lines 624-626: the (possibly missing) message identifier of an
assistant record. -/
def msgIdOf (msg : JVal) : Except PyErr JVal :=
  match msg with
  | .obj o =>
    match jLookup o "message" with
    | some (.obj m) => .ok (jPyGet m "id")
    | some _ => .error .attributeError
    | none => .ok .null
  | _ => .ok .null

/-- One iteration of the message loop (source lines 581-642). -/
def stepAsm (ctx : RunCtx) (s : AsmState) (msg : JVal) : Except PyErr AsmState := do
  let role ← getRole msg
  if pyEq role (.str "user") then do
    let itr ← is_tool_result msg
    if itr then
      .ok { s with current_tool_results := s.current_tool_results ++ [msg] }
    else do
      let assts ← finalizeAssistants s
      let (tp, ems) ←
        if pyTruthyOpt s.current_user && !assts.isEmpty then
          match s.current_user with
          | some u => emitTurn ctx s.turns_processed u assts s.current_tool_results s.emissions
          | none => .ok (s.turns_processed, s.emissions)
        else .ok (s.turns_processed, s.emissions)
      .ok ⟨tp, some msg, [], [], .null, [], ems⟩
  else if pyEq role (.str "assistant") then do
    let msg_id ← msgIdOf msg
    if !pyTruthy msg_id then
      .ok { s with current_assistant_parts := s.current_assistant_parts ++ [msg] }
    else if pyEq msg_id s.current_msg_id then
      .ok { s with current_assistant_parts := s.current_assistant_parts ++ [msg] }
    else do
      let assts ← finalizeAssistants s
      .ok { s with
        current_assistants := assts
        current_msg_id := msg_id
        current_assistant_parts := [msg] }
  else .ok s

/-- The message loop of source lines 581-642. -/
def assembleLoop (ctx : RunCtx) (s : AsmState) : List JVal → Except PyErr AsmState
  | [] => .ok s
  | msg :: rest => do
    let s' ← stepAsm ctx s msg
    assembleLoop ctx s' rest

/-- Source lines 644-666: finalize the pending assistant message and emit the
final turn if it has a user message and at least one assistant message. -/
def finishRun (ctx : RunCtx) (s : AsmState) : Except PyErr (Nat × List Emission) := do
  let assts ← finalizeAssistants s
  if pyTruthyOpt s.current_user && !assts.isEmpty then
    match s.current_user with
    | some u => emitTurn ctx s.turns_processed u assts s.current_tool_results s.emissions
    | none => .ok (s.turns_processed, s.emissions)
  else .ok (s.turns_processed, s.emissions)

/-- The new-message extraction of source lines 559-566: lines beyond the
cursor that are non-blank and parse. -/
def parsedMessages (ls : List PLine) : List JVal :=
  ls.filterMap (fun l =>
    match l with
    | .msg v => some v
    | _ => none)

/-- `process_transcript` (source lines 537-676) for one session.  `sess` is
`state.get(session_id, {})` (`none` when the session is absent); the result
is the return value, the session's stored record after the run, and the list
of emissions attempted.  The early returns of lines 554-556 and 568-569 skip
`save_state`, leaving the stored record unchanged. -/
def process_transcript (iso : String → Option ℚ) (now : String)
    (emitOk : Nat → Bool) (session_id : String) (plines : List PLine)
    (sess : Option SessionState) :
    Except PyErr (Nat × Option SessionState × List Emission) :=
  let last_line := (sess.map SessionState.last_line).getD 0
  let turn_count := (sess.map SessionState.turn_count).getD 0
  let total_lines := plines.length
  if total_lines ≤ last_line then .ok (0, sess, [])
  else
    let new_messages := parsedMessages (plines.drop last_line)
    if new_messages.isEmpty then .ok (0, sess, [])
    else do
      let ctx : RunCtx := ⟨iso, now, emitOk, session_id, turn_count⟩
      let fs ← assembleLoop ctx asmStart new_messages
      let (tp, ems) ← finishRun ctx fs
      .ok (tp, some ⟨total_lines, turn_count + tp, now⟩, ems)

/-! ### Concrete fixtures used by witnesses and counterexamples -/

/-- Fixtures for concrete runs: an external timestamp parser that always
fails and a fixed current-time string. -/
def isoNone : String → Option ℚ := fun _ => none

/-- A concrete user message. -/
def cUser : JVal :=
  .obj [("type", .str "user"),
    ("message", .obj [("role", .str "user"), ("content", .str "What is 2+2?")]),
    ("timestamp", .str "T1")]

/-- A concrete assistant message with a thinking block, a text block and a
tool call. -/
def cAsst : JVal :=
  .obj [("type", .str "assistant"),
    ("message", .obj [("id", .str "m1"), ("model", .str "x"),
      ("content", .arr [.obj [("type", .str "thinking"), ("thinking", .str "hm")],
        .obj [("type", .str "text"), ("text", .str "4")],
        .obj [("type", .str "tool_use"), ("id", .str "t1"), ("name", .str "Bash"),
          ("input", .obj [("command", .str "ls")])]])]),
    ("timestamp", .str "T2")]

/-- A concrete tool-result record for the call `t1`. -/
def cToolRes : JVal :=
  .obj [("type", .str "user"),
    ("message", .obj [("role", .str "user"),
      ("content", .arr [.obj [("type", .str "tool_result"),
        ("tool_use_id", .str "t1"), ("content", .str "ok")]])]),
    ("timestamp", .str "T3"),
    ("toolUseResult", .obj [("durationMs", .num 250)])]

def c10run : Except PyErr (List JObj) :=
  create_keywordsai_spans isoNone "NOW" "sess" 1 cUser [cAsst] [cToolRes]

def c10spans : List JObj :=
  match c10run with
  | .ok s => s
  | .error _ => []

def c8run : Except PyErr (List JObj) :=
  create_keywordsai_spans isoNone "NOW" "sess" 1 cUser [cAsst] []

def c8spans : List JObj :=
  match c8run with
  | .ok s => s
  | .error _ => []

def c8map : ToolMap :=
  match [cAsst].foldlM addToolCallsOf ([] : ToolMap) with
  | .ok m => m
  | .error _ => []

/-- Invariant of the turn loop: the emissions so far are numbered
`k+1, ..., k + turns_processed` in order, and every span of every emission
carries the trace identifier of its own turn. -/
def emissionsNumbered (sid : String) (k : Nat) (s : AsmState) : Prop :=
  s.emissions.map Emission.turn_num = List.range' (k + 1) s.turns_processed ∧
  ∀ em ∈ s.emissions, ∀ sp ∈ em.spans,
    jLookup sp "trace_unique_id" = some (.str (sid ++ "_turn_" ++ toString em.turn_num))

def c2run : Except PyErr (Nat × Option SessionState × List Emission) :=
  process_transcript isoNone "NOW" (fun _ => true) "sess"
    [.msg cUser, .msg cAsst] (some ⟨0, 2, "u"⟩)

def c2ems : List Emission :=
  match c2run with
  | .ok (_, _, e) => e
  | .error _ => []

def c6ctx : RunCtx := ⟨isoNone, "NOW", (fun _ => true), "sess", 0⟩

def c6run : Except PyErr AsmState :=
  assembleLoop c6ctx asmStart (parsedMessages ([PLine.msg cUser].drop 0))

def c6fs : AsmState :=
  match c6run with
  | .ok s => s
  | .error _ => asmStart

/-- Replace the recorded success flag of an emission by what the oracle `e`
reports for its turn. -/
def reOk (e : Nat → Bool) (em : Emission) : Emission :=
  ⟨em.turn_num, em.spans, e em.turn_num⟩

/-- Rewrite the success flags of the emissions recorded in a loop state. -/
def remapState (e : Nat → Bool) (s : AsmState) : AsmState :=
  { s with emissions := s.emissions.map (reOk e) }

def c7run : Except PyErr (Nat × Option SessionState × List Emission) :=
  process_transcript isoNone "NOW" (fun _ => false) "sess"
    [.msg cUser, .msg cAsst] (some ⟨0, 2, "u"⟩)

def c7ems : List Emission :=
  match c7run with
  | .ok (_, _, e) => e
  | .error _ => []

/-- An id-less assistant fragment carrying one text block `A`. -/
def cA0 : JVal :=
  .obj [("type", .str "assistant"),
    ("message", .obj [("content",
      .arr [.obj [("type", .str "text"), ("text", .str "A")]])])]

/-- An identified assistant fragment carrying one text block `B`. -/
def cA1 : JVal :=
  .obj [("type", .str "assistant"),
    ("message", .obj [("id", .str "m1"),
      ("content", .arr [.obj [("type", .str "text"), ("text", .str "B")]])])]

def c5run : Except PyErr AsmState :=
  assembleLoop c6ctx asmStart [cUser, cA0, cA1]

/-- A second user message, opening the next turn. -/
def cUser2 : JVal :=
  .obj [("type", .str "user"),
    ("message", .obj [("role", .str "user"), ("content", .str "next")]),
    ("timestamp", .str "T4")]

/-- A second assistant message closing the second turn. -/
def cA2 : JVal :=
  .obj [("type", .str "assistant"),
    ("message", .obj [("id", .str "m2"),
      ("content", .arr [.obj [("type", .str "text"), ("text", .str "done")]])]),
    ("timestamp", .str "T5")]

/-- A log in which the result for `t1` only appears after the user message
that opens the next turn. -/
def c4run : Except PyErr (Nat × Option SessionState × List Emission) :=
  process_transcript isoNone "NOW" (fun _ => true) "sess"
    [.msg cUser, .msg cAsst, .msg cUser2, .msg cToolRes, .msg cA2]
    (some ⟨0, 0, "u"⟩)

/-- Navigate to field `key` of span `j` of emission `i` of a run result. -/
def emissionSpanField (r : Except PyErr (Nat × Option SessionState × List Emission))
    (i j : Nat) (key : String) : Option JVal :=
  match r with
  | .ok (_, _, ems) =>
    match ems[i]? with
    | some em =>
      match em.spans[j]? with
      | some sp => jLookup sp key
      | none => none
    | none => none
  | .error _ => none

/-! ### The well-formed input fragment on which the span compiler is total -/

/-- A content block safe for the text-joining and output-formatting passes:
a `text` block must carry a string (or no) `text` field. -/
def wfTextBlock (item : JVal) : Bool :=
  match item with
  | .obj o =>
    if pyEq (jPyGet o "type") (.str "text") then
      match jLookup o "text" with
      | some (.str _) => true
      | none => true
      | some _ => false
    else true
  | _ => true

/-- A content value safe for `get_text_content` and `format_tool_output`. -/
def wfContentVal (c : JVal) : Bool :=
  match c with
  | .arr items => items.all wfTextBlock
  | _ => true

/-- A value usable in Python arithmetic (a number or a boolean). -/
def numish (v : JVal) : Bool :=
  (pyToQ v).isSome

/-- A `usage` value on which `buildUsage` cannot raise: falsy, or a dict
whose token-count fields (defaulted to 0) are numeric. -/
def wfUsage (u : JVal) : Bool :=
  if !pyTruthy u then true
  else
    match u with
    | .obj o =>
      numish (jGetD o "input_tokens" (.num 0)) &&
      numish (jGetD o "output_tokens" (.num 0)) &&
      numish (jGetD o "cache_creation_input_tokens" (.num 0)) &&
      numish (jGetD o "cache_read_input_tokens" (.num 0))
    | _ => false

/-- A tool input on which `format_tool_input` cannot raise: for the
file-writing tools a truthy `content` field must be a string. -/
def wfToolInput (name ti : JVal) : Bool :=
  match ti with
  | .obj o =>
    if pyEq name (.str "Write") || pyEq name (.str "Edit") ||
        pyEq name (.str "MultiEdit") then
      match jGetD o "content" (.str "") with
      | .str _ => true
      | c => !pyTruthy c
    else true
  | _ => true

/-- A content block safe for the tool-call registration pass: a `tool_use`
block must have a hashable id and a well-formed input. -/
def wfToolUseBlock (item : JVal) : Bool :=
  match item with
  | .obj o =>
    if pyEq (jPyGet o "type") (.str "tool_use") then
      jHashable (jGetD o "id" (.str "")) &&
      wfToolInput (jGetD o "name" (.str "unknown")) (jGetD o "input" (.obj []))
    else true
  | _ => true

/-- The blocks of a content value are safe for the registration pass. -/
def wfToolBlocks (c : JVal) : Bool :=
  match c with
  | .arr items => items.all wfToolUseBlock
  | _ => true

/-- A well-formed user message: a dict (the processor always passes one)
whose effective content is safe for text extraction. -/
def wfUser (user_msg : JVal) : Bool :=
  match user_msg with
  | .obj o =>
    match jLookup o "message" with
    | some (.obj m) => wfContentVal (jPyGet m "content")
    | some _ => false
    | none => wfContentVal (jPyGet o "content")
  | _ => false

/-- A well-formed assistant message: a `message` field, when present, is a
dict; the effective content is safe for text extraction and tool
registration; the `usage` field is safe for `buildUsage`. -/
def wfAssistantMsg (am : JVal) : Bool :=
  match am with
  | .obj o =>
    match jLookup o "message" with
    | some (.obj m) =>
      wfContentVal (jPyGet m "content") && wfToolBlocks (jPyGet m "content") &&
        wfUsage (jPyGet m "usage")
    | some _ => false
    | none => wfContentVal (jPyGet o "content") && wfToolBlocks (jPyGet o "content")
  | _ => true

/-- A `toolUseResult` value on which `resultMetadataOf` cannot raise and
whose `durationMs`, if truthy, parses as a number for the latency field. -/
def wfTUR (tur : JVal) : Bool :=
  if !pyTruthy tur then true
  else
    match tur with
    | .obj t =>
      match jLookup t "durationMs" with
      | some d => !pyTruthy d || (pyToQ d).isSome
      | none => true
    | _ => false

/-- A content block safe for the correlation pass: a `tool_result` block
must have a hashable id and formattable content. -/
def wfResBlock (item : JVal) : Bool :=
  match item with
  | .obj o =>
    if pyEq (jPyGet o "type") (.str "tool_result") then
      jHashable (jPyGet o "tool_use_id") && wfContentVal (jPyGet o "content")
    else true
  | _ => true

/-- The blocks of a content value are safe for the correlation pass. -/
def wfResContent (c : JVal) : Bool :=
  match c with
  | .arr items => items.all wfResBlock
  | _ => true

/-- A well-formed tool-result record. -/
def wfToolResultMsg (tr : JVal) : Bool :=
  match tr with
  | .obj o =>
    (match jLookup o "message" with
     | some (.obj m) => wfResContent (jPyGet m "content")
     | some _ => false
     | none => wfResContent (jPyGet o "content")) &&
    wfTUR (jGetD o "toolUseResult" (.obj []))
  | _ => true

/-- A metadata dict whose `duration_ms`, if truthy, parses as a number. -/
def wfDuration (md : JObj) : Bool :=
  match jLookup md "duration_ms" with
  | some d => !pyTruthy d || (pyToQ d).isSome
  | none => true

/-- The invariant of the tool-call map maintained through the registration
and correlation passes: everything `toolSpanOf` consumes is safe. -/
def wfToolData (td : ToolData) : Bool :=
  wfToolInput td.name td.input &&
  (match td.output with
   | none => true
   | some c => wfContentVal c) &&
  (match td.result_metadata with
   | none => true
   | some md => wfDuration md)

/-- The input fragment of one turn on which the span compiler is total. -/
def wfTurn (user_msg : JVal) (ams trs : List JVal) : Bool :=
  wfUser user_msg && ams.all wfAssistantMsg && trs.all wfToolResultMsg

/-- The guard of the `model` placeholder: no assistant message, or the
first one carries no `model` field where the extractor looks. -/
def modelAbsent : Option JVal → Bool
  | none => true
  | some fa =>
    match fa with
    | .obj o =>
      match jLookup o "message" with
      | some (.obj m) => !jHasKey m "model"
      | some _ => false
      | none => true
    | _ => true

/-- A model-less assistant message with well-formed usage and a tool call. -/
def c9asst : JVal :=
  .obj [("type", .str "assistant"),
    ("message", .obj [("id", .str "m9"),
      ("usage", .obj [("input_tokens", .num 3), ("output_tokens", .num 5)]),
      ("content", .arr [.obj [("type", .str "text"), ("text", .str "4")],
        .obj [("type", .str "tool_use"), ("id", .str "t1"), ("name", .str "Bash"),
          ("input", .obj [("command", .str "ls")])]])]),
    ("timestamp", .str "T2")]

/-! ## Basic lemmas about the embedded dict operations -/

theorem jLookup_nil (k : String) : jLookup [] k = none := rfl

theorem jLookup_cons (p : String × JVal) (o : JObj) (k : String) :
    jLookup (p :: o) k = if p.1 == k then some p.2 else jLookup o k := by
  by_cases h : p.1 == k <;> simp [jLookup, List.find?, h]

theorem jLookup_replace_self (o : JObj) (k : String) (v : JVal)
    (h : jHasKey o k = true) :
    jLookup (o.map (fun p => if p.1 == k then (p.1, v) else p)) k = some v := by
  induction o with
  | nil => simp [jHasKey, jLookup] at h
  | cons p rest ih =>
    by_cases hp : p.1 = k
    · simp [jLookup_cons, hp]
    · have h' : jHasKey rest k = true := by
        simpa [jHasKey, jLookup_cons, hp] using h
      have hrest := ih h'
      simp only [beq_iff_eq] at hrest
      simp [jLookup_cons, hp, hrest]

theorem jLookup_replace_ne (o : JObj) (k : String) (v : JVal) (k' : String)
    (h : k' ≠ k) :
    jLookup (o.map (fun p => if p.1 == k then (p.1, v) else p)) k' = jLookup o k' := by
  induction o with
  | nil => rfl
  | cons p rest ih =>
    have hrest := ih
    simp only [beq_iff_eq] at hrest
    by_cases hp : p.1 = k
    · have hkk : k ≠ k' := fun hc => h hc.symm
      simp [jLookup_cons, hp, hkk, hrest]
    · simp [jLookup_cons, hp, hrest]

theorem jLookup_append_single_self (o : JObj) (k : String) (v : JVal)
    (h : jHasKey o k = false) : jLookup (o ++ [(k, v)]) k = some v := by
  induction o with
  | nil => simp [jLookup_cons]
  | cons p rest ih =>
    have hp : p.1 ≠ k := by
      intro hc
      simp [jHasKey, jLookup_cons, hc] at h
    have h' : jHasKey rest k = false := by
      simpa [jHasKey, jLookup_cons, hp] using h
    simp [List.cons_append, jLookup_cons, hp, ih h']

theorem jLookup_append_single_ne (o : JObj) (k : String) (v : JVal) (k' : String)
    (h : k' ≠ k) : jLookup (o ++ [(k, v)]) k' = jLookup o k' := by
  induction o with
  | nil =>
    have : k ≠ k' := fun hc => h hc.symm
    simp [jLookup_cons, jLookup_nil, this]
  | cons p rest ih =>
    simp [List.cons_append, jLookup_cons, ih]

theorem jLookup_jSet_self (o : JObj) (k : String) (v : JVal) :
    jLookup (jSet o k v) k = some v := by
  unfold jSet
  by_cases h : jHasKey o k
  · simpa [h] using jLookup_replace_self o k v h
  · simpa [h] using jLookup_append_single_self o k v (by simpa using h)

theorem jLookup_jSet_ne (o : JObj) (k : String) (v : JVal) (k' : String)
    (h : k' ≠ k) : jLookup (jSet o k v) k' = jLookup o k' := by
  unfold jSet
  by_cases hk : jHasKey o k
  · simpa [hk] using jLookup_replace_ne o k v k' h
  · simpa [hk] using jLookup_append_single_ne o k v k' h

/-! ## Claim C1 -/

/-- Claim C1: for every log content and stored session state whose cursor
`last_line` is at least the total number of lines, `process_transcript`
returns 0 immediately: no turn is built, no span batch is emitted, and the
stored session record is left unchanged (source lines 554-556). -/
theorem process_transcript_covered_cursor_noop (iso : String → Option ℚ)
    (now : String) (emitOk : Nat → Bool) (session_id : String)
    (plines : List PLine) (sess : Option SessionState)
    (h : plines.length ≤ (sess.map SessionState.last_line).getD 0) :
    process_transcript iso now emitOk session_id plines sess = .ok (0, sess, []) := by
  unfold process_transcript
  simp [h]

/-- Witness for C1: a cursor of 2 over a one-line log is a no-op. -/
theorem process_transcript_covered_cursor_noop_witness :
    process_transcript (fun _ => none) "NOW" (fun _ => true) "sess"
      [PLine.blank] (some ⟨2, 5, "u"⟩) = .ok (0, some ⟨2, 5, "u"⟩, []) :=
  process_transcript_covered_cursor_noop (fun _ => none) "NOW" (fun _ => true)
    "sess" [PLine.blank] (some ⟨2, 5, "u"⟩) (by decide)

/-! ## Claim C3: merge correctness -/

theorem mergedContent_of_lists (parts : List JVal) (contents : List (List JVal))
    (h : List.Forall₂ (fun p c => get_content p = .ok (.arr c)) parts contents) :
    mergedContent parts = .ok contents.flatten := by
  induction h with
  | nil => rfl
  | cons h1 _ ih =>
    simp [mergedContent, h1, ih, Bind.bind, Except.bind]

/-- Claim C3: for every non-empty list of assistant fragments (each carrying
its content as a list of blocks, the shape of an `AssistantFragment`), the
merged message's content block list is the concatenation of the fragments'
block lists in encounter order, and every other field — both the top-level
fields (e.g. `timestamp`) and the fields of the inner `message` object
(`model`, `usage`, `requestId`, `stop_reason`) — is that of the **first**
fragment. -/
theorem merge_assistant_parts_spec (o m : JObj) (rest : List JVal)
    (contents : List (List JVal))
    (hmsg : jLookup o "message" = some (.obj m))
    (h : List.Forall₂ (fun p c => get_content p = .ok (.arr c))
      (JVal.obj o :: rest) contents) :
    merge_assistant_parts (JVal.obj o :: rest) =
      .ok (.obj (jSet o "message" (.obj (jSet m "content" (.arr contents.flatten))))) ∧
    jLookup (jSet m "content" (.arr contents.flatten)) "content" =
      some (.arr contents.flatten) ∧
    (∀ k, k ≠ "content" →
      jLookup (jSet m "content" (.arr contents.flatten)) k = jLookup m k) ∧
    (∀ k, k ≠ "message" →
      jLookup (jSet o "message" (.obj (jSet m "content" (.arr contents.flatten)))) k =
        jLookup o k) := by
  refine ⟨?_, jLookup_jSet_self _ _ _, fun k hk => jLookup_jSet_ne _ _ _ _ hk,
    fun k hk => jLookup_jSet_ne _ _ _ _ hk⟩
  have hmc := mergedContent_of_lists _ _ h
  simp [merge_assistant_parts, hmc, hmsg, Bind.bind, Except.bind]

/-- Witness for C3: an assistant message split into three fragments sharing
the identifier `m1`; the merged content list is the concatenation of the
three block lists and `model`/`usage`/`timestamp` come from the first
fragment. -/
theorem merge_assistant_parts_spec_witness :
    merge_assistant_parts
      [.obj [("type", .str "assistant"),
         ("message", .obj [("id", .str "m1"), ("model", .str "x"),
           ("usage", .obj [("input_tokens", .num 3)]),
           ("content", .arr [.obj [("type", .str "text"), ("text", .str "a")]])]),
         ("timestamp", .str "T1")],
       .obj [("message", .obj [("id", .str "m1"),
           ("content", .arr [.obj [("type", .str "text"), ("text", .str "b")]])])],
       .obj [("message", .obj [("id", .str "m1"),
           ("content", .arr [.obj [("type", .str "text"), ("text", .str "c")]])])]] =
      .ok (.obj [("type", .str "assistant"),
        ("message", .obj [("id", .str "m1"), ("model", .str "x"),
          ("usage", .obj [("input_tokens", .num 3)]),
          ("content", .arr [.obj [("type", .str "text"), ("text", .str "a")],
            .obj [("type", .str "text"), ("text", .str "b")],
            .obj [("type", .str "text"), ("text", .str "c")]])]),
        ("timestamp", .str "T1")]) :=
  (merge_assistant_parts_spec
    [("type", .str "assistant"),
      ("message", .obj [("id", .str "m1"), ("model", .str "x"),
        ("usage", .obj [("input_tokens", .num 3)]),
        ("content", .arr [.obj [("type", .str "text"), ("text", .str "a")]])]),
      ("timestamp", .str "T1")]
    [("id", .str "m1"), ("model", .str "x"),
      ("usage", .obj [("input_tokens", .num 3)]),
      ("content", .arr [.obj [("type", .str "text"), ("text", .str "a")]])]
    [.obj [("message", .obj [("id", .str "m1"),
        ("content", .arr [.obj [("type", .str "text"), ("text", .str "b")]])])],
      .obj [("message", .obj [("id", .str "m1"),
        ("content", .arr [.obj [("type", .str "text"), ("text", .str "c")]])])]]
    [[.obj [("type", .str "text"), ("text", .str "a")]],
      [.obj [("type", .str "text"), ("text", .str "b")]],
      [.obj [("type", .str "text"), ("text", .str "c")]]]
    rfl
    (.cons rfl (.cons rfl (.cons rfl .nil)))).1

/-! ## Decomposition of the span compiler's output -/

theorem exceptBind_ok {α β : Type} {e : Except PyErr α} {f : α → Except PyErr β}
    {v : β} (h : (e >>= f) = .ok v) : ∃ a, e = .ok a ∧ f a = .ok v := by
  cases e with
  | error er => simp [Bind.bind, Except.bind] at h
  | ok a => exact ⟨a, rfl, by simpa [Bind.bind, Except.bind] using h⟩

theorem jLookup_ifSet_ne (b : Bool) (c : JObj) (kk : String) (v : JVal) (k : String)
    (h : k ≠ kk) : jLookup (if b then jSet c kk v else c) k = jLookup c k := by
  cases b <;> simp [jLookup_jSet_ne _ _ _ _ h]

theorem applyUsageFields_lookup (c : JObj) (uo : Option JObj) (k : String)
    (h1 : k ≠ "prompt_tokens") (h2 : k ≠ "completion_tokens")
    (h3 : k ≠ "total_tokens") (h4 : k ≠ "cache_creation_prompt_tokens")
    (h5 : k ≠ "prompt_tokens_details") :
    jLookup (applyUsageFields c uo) k = jLookup c k := by
  cases uo with
  | none => rfl
  | some uo =>
    simp only [applyUsageFields]
    rw [jLookup_ifSet_ne _ _ _ _ _ h5, jLookup_ifSet_ne _ _ _ _ _ h4,
      jLookup_ifSet_ne _ _ _ _ _ h3, jLookup_jSet_ne _ _ _ _ h2,
      jLookup_jSet_ne _ _ _ _ h1]

theorem applyLatencyField_lookup (c : JObj) (lat : Option ℚ) (k : String)
    (h : k ≠ "latency") : jLookup (applyLatencyField c lat) k = jLookup c k := by
  cases lat with
  | none => rfl
  | some l => simp [applyLatencyField, jLookup_jSet_ne _ _ _ _ h]

/-- Inversion of a successful `create_keywordsai_spans` run: the span list is
the root chat span followed by the thinking spans and then the tool spans,
the child-span passes ran over a context naming this turn, and the root span
carries the `agent` log type, a null parent, the turn-scoped identifiers and
the extracted model. -/
theorem create_decomp (iso : String → Option ℚ) (now session_id : String)
    (turn_num : Nat) (user_msg : JVal) (ams trs : List JVal) (spans : List JObj)
    (hok : create_keywordsai_spans iso now session_id turn_num user_msg ams trs =
      .ok spans) :
    ∃ (ctx : SpanCtx) (chat : JObj) (think tool : List JObj) (tmap0 tmap : ToolMap)
      (fi : FirstInfo),
      spans = chat :: (think ++ tool) ∧
      ctx.trace_unique_id = session_id ++ "_turn_" ++ toString turn_num ∧
      ctx.chat_span_id = "turn_" ++ toString turn_num ++ "_chat" ∧
      ctx.workflow_name = "claudecode_" ++ session_id ∧
      ctx.turn_num = turn_num ∧
      thinkingSpans ctx ams [] = .ok think ∧
      ams.foldlM addToolCallsOf [] = .ok tmap0 ∧
      trs.foldlM applyResult tmap0 = .ok tmap ∧
      toolSpans ctx tmap 0 [] = .ok tool ∧
      firstAssistantInfo ams.head? = .ok fi ∧
      jLookup chat "log_type" = some (.str "agent") ∧
      jLookup chat "span_parent_id" = some .null ∧
      jLookup chat "span_unique_id" =
        some (.str ("turn_" ++ toString turn_num ++ "_chat")) ∧
      jLookup chat "trace_unique_id" =
        some (.str (session_id ++ "_turn_" ++ toString turn_num)) ∧
      jLookup chat "model" = some fi.model := by
  simp only [create_keywordsai_spans] at hok
  obtain ⟨ut, h1, hok⟩ := exceptBind_ok hok
  obtain ⟨uts, h2, hok⟩ := exceptBind_ok hok
  obtain ⟨fo, h3, hok⟩ := exceptBind_ok hok
  obtain ⟨fi, h4, hok⟩ := exceptBind_ok hok
  obtain ⟨uomd, h5, hok⟩ := exceptBind_ok hok
  obtain ⟨think, h6, hok⟩ := exceptBind_ok hok
  obtain ⟨tmap0, h7, hok⟩ := exceptBind_ok hok
  obtain ⟨tmap, h8, hok⟩ := exceptBind_ok hok
  obtain ⟨tool, h9, hok⟩ := exceptBind_ok hok
  simp only [Except.ok.injEq] at hok
  subst hok
  refine ⟨_, _, think, tool, tmap0, tmap, fi, rfl, rfl, rfl, rfl, rfl,
    h6, h7, h8, h9, h4, ?_, ?_, ?_, ?_, ?_⟩ <;>
    rw [applyLatencyField_lookup _ _ _ (by decide),
      applyUsageFields_lookup _ _ _ (by decide) (by decide) (by decide)
        (by decide) (by decide)] <;> rfl

/-- Field facts of every span appended by `thinkingFromContent`. -/
theorem thinkingFromContent_mem (ctx : SpanCtx) (ts : JVal) (items : List JVal)
    (acc : List JObj) (sp : JObj) (h : sp ∈ thinkingFromContent ctx ts items acc) :
    sp ∈ acc ∨
      (jLookup sp "trace_unique_id" = some (.str ctx.trace_unique_id) ∧
       jLookup sp "span_parent_id" = some (.str ctx.chat_span_id) ∧
       jLookup sp "log_type" = some (.str "generation")) := by
  induction items generalizing acc with
  | nil => exact Or.inl h
  | cons item rest ih =>
    match item with
    | .obj o =>
      simp only [thinkingFromContent] at h
      by_cases h1 : pyEq (jPyGet o "type") (.str "thinking")
      · simp only [h1, if_true] at h
        by_cases h2 : pyTruthy (jGetD o "thinking" (.str ""))
        · simp only [h2, if_true] at h
          rcases ih _ h with hacc | hp
          · rcases List.mem_append.mp hacc with hl | hr
            · exact Or.inl hl
            · right
              rw [List.mem_singleton.mp hr]
              exact ⟨rfl, rfl, rfl⟩
          · exact Or.inr hp
        · simp only [h2, if_false] at h
          exact ih _ h
      · simp only [h1, if_false] at h
        exact ih _ h
    | .null => exact ih _ h
    | .bool b => exact ih _ h
    | .num q => exact ih _ h
    | .str s => exact ih _ h
    | .arr xs => exact ih _ h

/-- Field facts of every span produced by the thinking-span pass. -/
theorem thinkingSpans_mem (ctx : SpanCtx) (ams : List JVal) (acc out : List JObj)
    (hok : thinkingSpans ctx ams acc = .ok out) (sp : JObj) (h : sp ∈ out) :
    sp ∈ acc ∨
      (jLookup sp "trace_unique_id" = some (.str ctx.trace_unique_id) ∧
       jLookup sp "span_parent_id" = some (.str ctx.chat_span_id) ∧
       jLookup sp "log_type" = some (.str "generation")) := by
  induction ams generalizing acc with
  | nil =>
    simp only [thinkingSpans, Except.ok.injEq] at hok
    subst hok
    exact Or.inl h
  | cons am rest ih =>
    simp only [thinkingSpans] at hok
    split at hok
    · split at hok
      · split at hok
        · rcases ih _ hok with hacc | hp
          · rcases thinkingFromContent_mem _ _ _ _ _ hacc with h' | hp'
            · exact Or.inl h'
            · exact Or.inr hp'
          · exact Or.inr hp
        · exact ih _ hok
      · simp at hok
      · exact ih _ hok
    · exact ih _ hok

/-- The base dict of a tool span (source lines 511-522), before the optional
metadata and latency fields are attached. -/
theorem toolSpanOf_decomp (ctx : SpanCtx) (k : Nat) (td : ToolData) (sp : JObj)
    (hok : toolSpanOf ctx k td = .ok sp) :
    ∃ (fin fout : String) (md : Option JObj) (lat : Option ℚ),
      format_tool_input td.name td.input 4000 = .ok fin ∧
      format_tool_output td.name (optNull td.output) 4000 = .ok fout ∧
      sp = applyLatencyField
        (match md with
         | some m => jSet [("trace_unique_id", .str ctx.trace_unique_id),
            ("span_unique_id", .str ("turn_" ++ toString ctx.turn_num ++ "_tool_" ++
              toString k)),
            ("span_parent_id", .str ctx.chat_span_id),
            ("span_name", .str ("Tool: " ++ pyStr td.name)),
            ("span_workflow_name", .str ctx.workflow_name),
            ("log_type", .str "tool"),
            ("input", .str fin),
            ("output", .str fout),
            ("timestamp", pyOr (optNull td.result_timestamp)
              (pyOr td.timestamp ctx.timestamp_str)),
            ("start_time", pyOr td.timestamp ctx.start_time_str)] "metadata" (.obj m)
         | none => [("trace_unique_id", .str ctx.trace_unique_id),
            ("span_unique_id", .str ("turn_" ++ toString ctx.turn_num ++ "_tool_" ++
              toString k)),
            ("span_parent_id", .str ctx.chat_span_id),
            ("span_name", .str ("Tool: " ++ pyStr td.name)),
            ("span_workflow_name", .str ctx.workflow_name),
            ("log_type", .str "tool"),
            ("input", .str fin),
            ("output", .str fout),
            ("timestamp", pyOr (optNull td.result_timestamp)
              (pyOr td.timestamp ctx.timestamp_str)),
            ("start_time", pyOr td.timestamp ctx.start_time_str)]) lat ∧
      ((td.result_metadata = none ∨ td.result_metadata = some []) →
        md = none ∧ lat = none) := by
  simp only [toolSpanOf] at hok
  obtain ⟨fin, hfin, hok⟩ := exceptBind_ok hok
  obtain ⟨fout, hfout, hok⟩ := exceptBind_ok hok
  split at hok
  · rename_i m hm
    by_cases hemp : m.isEmpty
    · simp only [hemp, Bool.not_true, if_neg, Bool.false_eq_true,
        not_false_eq_true, Except.ok.injEq] at hok
      refine ⟨fin, fout, none, none, hfin, hfout, ?_, fun _ => ⟨rfl, rfl⟩⟩
      rw [← hok]
      rfl
    · simp only [hemp, Bool.not_false, if_pos] at hok
      split at hok
      · split at hok
        · rename_i q hq
          simp only [Except.ok.injEq] at hok
          refine ⟨fin, fout, some m, some (q / 1000), hfin, hfout, ?_, ?_⟩
          · rw [← hok]; rfl
          · intro hmd
            rcases hmd with hmd | hmd <;> rw [hm] at hmd <;> simp at hmd
            subst hmd
            simp at hemp
        · simp at hok
      · rename_i hdm
        simp only [Except.ok.injEq] at hok
        refine ⟨fin, fout, some m, none, hfin, hfout, ?_, ?_⟩
        · rw [← hok]; rfl
        · intro hmd
          rcases hmd with hmd | hmd <;> rw [hm] at hmd <;> simp at hmd
          subst hmd
          simp at hemp
  · rename_i hm
    simp only [Except.ok.injEq] at hok
    refine ⟨fin, fout, none, none, hfin, hfout, ?_, fun _ => ⟨rfl, rfl⟩⟩
    rw [← hok]
    rfl

/-- Field facts of one tool span. -/
theorem toolSpanOf_fields (ctx : SpanCtx) (k : Nat) (td : ToolData) (sp : JObj)
    (hok : toolSpanOf ctx k td = .ok sp) :
    jLookup sp "trace_unique_id" = some (.str ctx.trace_unique_id) ∧
    jLookup sp "span_parent_id" = some (.str ctx.chat_span_id) ∧
    jLookup sp "log_type" = some (.str "tool") := by
  obtain ⟨fin, fout, md, lat, _, _, hsp, _⟩ := toolSpanOf_decomp _ _ _ _ hok
  subst hsp
  refine ⟨?_, ?_, ?_⟩ <;>
    rw [applyLatencyField_lookup _ _ _ (by decide)] <;>
    cases md <;> rfl

/-- The tool-span loop appends one span per map entry in order. -/
theorem toolSpans_decomp (ctx : SpanCtx) (m : ToolMap) (n : Nat) (acc out : List JObj)
    (hok : toolSpans ctx m n acc = .ok out) :
    ∃ us, out = acc ++ us ∧ us.length = m.length ∧
      ∀ i t td, m[i]? = some (t, td) →
        ∃ sp, toolSpanOf ctx (n + i + 1) td = .ok sp ∧ us[i]? = some sp := by
  induction m generalizing n acc with
  | nil =>
    simp only [toolSpans, Except.ok.injEq] at hok
    subst hok
    exact ⟨[], (List.append_nil acc).symm, rfl, fun i t td h => by simp at h⟩
  | cons p rest ih =>
    obtain ⟨t, td⟩ := p
    simp only [toolSpans] at hok
    obtain ⟨sp, hsp, hok⟩ := exceptBind_ok hok
    obtain ⟨us', hout, hlen, hidx⟩ := ih _ _ hok
    refine ⟨sp :: us', by simpa [List.append_assoc] using hout, by simp [hlen], ?_⟩
    intro i t' td' hget
    match i with
    | 0 =>
      simp only [List.getElem?_cons_zero, Option.some.injEq, Prod.mk.injEq] at hget
      exact ⟨sp, by rw [← hget.2]; simpa using hsp, by simp⟩
    | i + 1 =>
      simp only [List.getElem?_cons_succ] at hget
      obtain ⟨sp', hsp', hget'⟩ := hidx i t' td' hget
      exact ⟨sp', by simpa [Nat.add_assoc, Nat.add_comm 1 i] using hsp', by simpa using hget'⟩

/-- Field facts of every span produced by the tool-span loop. -/
theorem toolSpans_mem (ctx : SpanCtx) (m : ToolMap) (n : Nat) (acc out : List JObj)
    (hok : toolSpans ctx m n acc = .ok out) (sp : JObj) (h : sp ∈ out) :
    sp ∈ acc ∨
      (jLookup sp "trace_unique_id" = some (.str ctx.trace_unique_id) ∧
       jLookup sp "span_parent_id" = some (.str ctx.chat_span_id) ∧
       jLookup sp "log_type" = some (.str "tool")) := by
  induction m generalizing n acc with
  | nil =>
    simp only [toolSpans, Except.ok.injEq] at hok
    subst hok
    exact Or.inl h
  | cons p rest ih =>
    obtain ⟨t, td⟩ := p
    simp only [toolSpans] at hok
    obtain ⟨sp', hsp', hok⟩ := exceptBind_ok hok
    rcases ih _ _ hok with hacc | hp
    · rcases List.mem_append.mp hacc with hl | hr
      · exact Or.inl hl
      · right
        rw [List.mem_singleton.mp hr]
        exact toolSpanOf_fields _ _ _ _ hsp'
    · exact Or.inr hp

/-! ## Claim C10: shape of the compiled span list -/

/-- Claim C10: a successful run of `create_keywordsai_spans` returns the root
span first — the only span with `log_type` `"agent"` and a null
`span_parent_id` — followed by all thinking spans and then all tool spans;
every child span's `span_parent_id` is the root span's `span_unique_id`
`turn_{n}_chat`, and every span carries the shared `trace_unique_id`
`{session_id}_turn_{n}`. -/
theorem span_tree_shape (iso : String → Option ℚ) (now session_id : String)
    (turn_num : Nat) (user_msg : JVal) (ams trs : List JVal) (spans : List JObj)
    (hok : create_keywordsai_spans iso now session_id turn_num user_msg ams trs =
      .ok spans) :
    ∃ (chat : JObj) (think tool : List JObj),
      spans = chat :: (think ++ tool) ∧
      jLookup chat "log_type" = some (.str "agent") ∧
      jLookup chat "span_parent_id" = some .null ∧
      jLookup chat "span_unique_id" =
        some (.str ("turn_" ++ toString turn_num ++ "_chat")) ∧
      jLookup chat "trace_unique_id" =
        some (.str (session_id ++ "_turn_" ++ toString turn_num)) ∧
      (∀ sp ∈ think,
        jLookup sp "log_type" = some (.str "generation") ∧
        jLookup sp "span_parent_id" =
          some (.str ("turn_" ++ toString turn_num ++ "_chat")) ∧
        jLookup sp "trace_unique_id" =
          some (.str (session_id ++ "_turn_" ++ toString turn_num))) ∧
      (∀ sp ∈ tool,
        jLookup sp "log_type" = some (.str "tool") ∧
        jLookup sp "span_parent_id" =
          some (.str ("turn_" ++ toString turn_num ++ "_chat")) ∧
        jLookup sp "trace_unique_id" =
          some (.str (session_id ++ "_turn_" ++ toString turn_num))) := by
  obtain ⟨ctx, chat, think, tool, tmap0, tmap, fi, hs, hctx1, hctx2, hctx3, hctx4,
    hthink, hmap0, hmap, htool, hfi, hlt, hpar, hsid, htid, hmodel⟩ :=
    create_decomp _ _ _ _ _ _ _ _ hok
  refine ⟨chat, think, tool, hs, hlt, hpar, hsid, htid, ?_, ?_⟩
  · intro sp hsp
    rcases thinkingSpans_mem _ _ _ _ hthink sp hsp with hacc | ⟨h1, h2, h3⟩
    · simp at hacc
    · rw [hctx1] at h1
      rw [hctx2] at h2
      exact ⟨h3, h2, h1⟩
  · intro sp hsp
    rcases toolSpans_mem _ _ _ _ _ htool sp hsp with hacc | ⟨h1, h2, h3⟩
    · simp at hacc
    · rw [hctx1] at h1
      rw [hctx2] at h2
      exact ⟨h3, h2, h1⟩

/-- Witness for C10 on a concrete turn with one thinking block and one
resolved tool call. -/
theorem span_tree_shape_witness :
    ∃ (chat : JObj) (think tool : List JObj),
      c10spans = chat :: (think ++ tool) ∧
      jLookup chat "log_type" = some (.str "agent") ∧
      jLookup chat "span_parent_id" = some .null ∧
      jLookup chat "span_unique_id" = some (.str ("turn_" ++ toString 1 ++ "_chat")) ∧
      jLookup chat "trace_unique_id" =
        some (.str ("sess" ++ "_turn_" ++ toString 1)) ∧
      (∀ sp ∈ think,
        jLookup sp "log_type" = some (.str "generation") ∧
        jLookup sp "span_parent_id" = some (.str ("turn_" ++ toString 1 ++ "_chat")) ∧
        jLookup sp "trace_unique_id" =
          some (.str ("sess" ++ "_turn_" ++ toString 1))) ∧
      (∀ sp ∈ tool,
        jLookup sp "log_type" = some (.str "tool") ∧
        jLookup sp "span_parent_id" = some (.str ("turn_" ++ toString 1 ++ "_chat")) ∧
        jLookup sp "trace_unique_id" =
          some (.str ("sess" ++ "_turn_" ++ toString 1))) :=
  span_tree_shape isoNone "NOW" "sess" 1 cUser [cAsst] [cToolRes] c10spans (by rfl)

/-! ## Lemmas on the tool-call map -/

theorem foldlM_except_invariant {α β : Type} (f : β → α → Except PyErr β)
    (P : β → Prop) (hstep : ∀ b a b', f b a = .ok b' → P b → P b') :
    ∀ (l : List α) (b b'), l.foldlM f b = .ok b' → P b → P b'
  | [], b, b', h, hP => by
    simp only [List.foldlM_nil, Except.pure, pure, Except.ok.injEq] at h
    exact h ▸ hP
  | a :: l, b, b', h, hP => by
    simp only [List.foldlM_cons] at h
    obtain ⟨b1, h1, h2⟩ := exceptBind_ok h
    exact foldlM_except_invariant f P hstep l b1 b' h2 (hstep b a b1 h1 hP)

theorem tmUpdate_getElem (m : ToolMap) (k : JVal) (f : ToolData → ToolData) (i : Nat) :
    (tmUpdate m k f)[i]? = (m[i]?).map
      (fun p => if pyEq p.1 k then (p.1, f p.2) else p) := by
  simp [tmUpdate, List.getElem?_map]

theorem tmUpdate_length (m : ToolMap) (k : JVal) (f : ToolData → ToolData) :
    (tmUpdate m k f).length = m.length := by
  simp [tmUpdate]

theorem applyResultItem_length (md : JObj) (tr : JVal) (acc : ToolMap) (item : JVal)
    (acc' : ToolMap) (hok : applyResultItem md tr acc item = .ok acc') :
    acc'.length = acc.length := by
  simp only [applyResultItem] at hok
  split at hok
  · split at hok
    · split at hok
      · split at hok
        · simp only [Except.ok.injEq] at hok
          rw [← hok, tmUpdate_length]
        · simp only [Except.ok.injEq] at hok
          rw [← hok]
      · simp at hok
    · simp only [Except.ok.injEq] at hok
      rw [← hok]
  · simp only [Except.ok.injEq] at hok
    rw [← hok]

theorem applyResultItem_entry (md : JObj) (tr : JVal) (acc : ToolMap) (item : JVal)
    (acc' : ToolMap) (hok : applyResultItem md tr acc item = .ok acc')
    (i : Nat) (t : JVal) (td : ToolData) (hget : acc[i]? = some (t, td)) :
    acc'[i]? = some (t,
      match blockFor t item with
      | some o => resUpd md tr o td
      | none => td) := by
  have hmem : (t, td) ∈ acc := List.getElem?_mem hget
  simp only [applyResultItem] at hok
  unfold blockFor
  split at hok
  · rename_i o
    by_cases htype : pyEq (jPyGet o "type") (.str "tool_result")
    · simp only [htype, if_true] at hok
      split at hok
      · split at hok
        · rename_i hhash hhas
          simp only [Except.ok.injEq] at hok
          rw [← hok, tmUpdate_getElem, hget]
          by_cases hteq : pyEq t (jPyGet o "tool_use_id")
          · simp [htype, hteq]
          · simp [htype, hteq]
        · rename_i hhash hhas
          simp only [Except.ok.injEq] at hok
          subst hok
          have hteq : pyEq t (jPyGet o "tool_use_id") = false := by
            by_contra hc
            simp only [Bool.not_eq_false] at hc
            exact hhas (List.any_eq_true.mpr ⟨(t, td), hmem, hc⟩)
          simp [htype, hteq, hget]
      · simp at hok
    · simp [htype] at hok
      subst hok
      simp [htype, hget]
  · simp only [Except.ok.injEq] at hok
    subst hok
    simpa using hget

/-- `resUpd` overwrites the same three fields, so a later update absorbs an
earlier one. -/
theorem resUpd_resUpd (md1 md2 : JObj) (tr1 tr2 : JVal) (o1 o2 : JObj)
    (td : ToolData) :
    resUpd md2 tr2 o2 (resUpd md1 tr1 o1 td) = resUpd md2 tr2 o2 td := rfl

/-- Restarting the last-match scan from an accumulator. -/
theorem foldBlock_start (t : JVal) (items : List JVal) (a : Option JObj) :
    items.foldl (fun acc item =>
      match blockFor t item with
      | some o => some o
      | none => acc) a =
    match items.foldl (fun acc item =>
      match blockFor t item with
      | some o => some o
      | none => acc) none with
    | some o => some o
    | none => a := by
  induction items generalizing a with
  | nil => rfl
  | cons item rest ih =>
    simp only [List.foldl_cons]
    cases hb : blockFor t item with
    | some o =>
      simp only [hb]
      rw [ih (some o)]
      cases hr : rest.foldl (fun acc item =>
        match blockFor t item with
        | some o => some o
        | none => acc) none with
      | some o' => rfl
      | none => rfl
    | none =>
      simp only [hb]
      exact ih a

/-- The per-index effect of scanning one record's content blocks. -/
theorem itemsFold_entry (md : JObj) (tr : JVal) (t : JVal) :
    ∀ (items : List JVal) (acc acc' : ToolMap),
      items.foldlM (applyResultItem md tr) acc = .ok acc' →
      ∀ (i : Nat) (td : ToolData), acc[i]? = some (t, td) →
      acc'[i]? = some (t,
        match items.foldl (fun a item =>
          match blockFor t item with
          | some o => some o
          | none => a) none with
        | some o => resUpd md tr o td
        | none => td)
  | [], acc, acc', hok, i, td, hget => by
    simp only [List.foldlM_nil, Except.pure, pure, Except.ok.injEq] at hok
    subst hok
    simpa using hget
  | item :: rest, acc, acc', hok, i, td, hget => by
    simp only [List.foldlM_cons] at hok
    obtain ⟨acc1, h1, h2⟩ := exceptBind_ok hok
    have hstep := applyResultItem_entry md tr acc item acc1 h1 i t td hget
    have hrest := itemsFold_entry md tr t rest acc1 acc' h2 i _ hstep
    rw [hrest]
    simp only [List.foldl_cons]
    cases hb : blockFor t item with
    | some o =>
      simp only [hb]
      rw [foldBlock_start t rest (some o)]
      cases hr : rest.foldl (fun a item =>
        match blockFor t item with
        | some o => some o
        | none => a) none with
      | some o' => simp [hr, resUpd_resUpd]
      | none => simp [hr]
    | none => simp only [hb]

/-- The per-index effect of correlating one tool-result record. -/
theorem applyResult_entry (m m' : ToolMap) (tr : JVal)
    (hok : applyResult m tr = .ok m') (i : Nat) (t : JVal) (td : ToolData)
    (hget : m[i]? = some (t, td)) :
    ∃ md, resultMetadataOf tr = .ok md ∧
      m'[i]? = some (t,
        match lastMatchIn t tr with
        | some o => resUpd md tr o td
        | none => td) := by
  simp only [applyResult] at hok
  obtain ⟨trc, h1, hok⟩ := exceptBind_ok hok
  obtain ⟨md, h2, hok⟩ := exceptBind_ok hok
  refine ⟨md, h2, ?_⟩
  unfold lastMatchIn
  rw [h1]
  match trc with
  | .arr items => exact itemsFold_entry md tr t items m m' hok i td hget
  | .null | .bool _ | .num _ | .str _ | .obj _ =>
    simp only [Except.ok.injEq] at hok
    subst hok
    simpa using hget

/-- Restarting the last-record scan from an accumulator. -/
theorem foldResult_start (t : JVal) (trs : List JVal) (a : Option (JVal × JObj)) :
    trs.foldl (fun acc tr =>
      match lastMatchIn t tr with
      | some o => some (tr, o)
      | none => acc) a =
    match trs.foldl (fun acc tr =>
      match lastMatchIn t tr with
      | some o => some (tr, o)
      | none => acc) none with
    | some x => some x
    | none => a := by
  induction trs generalizing a with
  | nil => rfl
  | cons tr rest ih =>
    simp only [List.foldl_cons]
    cases hb : lastMatchIn t tr with
    | some o =>
      simp only [hb]
      rw [ih (some (tr, o))]
      cases hr : rest.foldl (fun acc tr =>
        match lastMatchIn t tr with
        | some o => some (tr, o)
        | none => acc) none with
      | some x => rfl
      | none => rfl
    | none =>
      simp only [hb]
      exact ih a

/-- The per-index effect of the whole result-correlation pass: the entry for
key `t` ends up carrying the content of the last correlating block of the
last record containing one, and is untouched when no record correlates. -/
theorem foldResults_entry (t : JVal) :
    ∀ (trs : List JVal) (m m' : ToolMap),
      trs.foldlM applyResult m = .ok m' →
      ∀ (i : Nat) (td : ToolData), m[i]? = some (t, td) →
      (lastResultFor t trs = none → m'[i]? = some (t, td)) ∧
      (∀ tr o, lastResultFor t trs = some (tr, o) →
        ∃ md, resultMetadataOf tr = .ok md ∧ m'[i]? = some (t, resUpd md tr o td))
  | [], m, m', hok, i, td, hget => by
    simp only [List.foldlM_nil, Except.pure, pure, Except.ok.injEq] at hok
    subst hok
    exact ⟨fun _ => by simpa using hget, fun tr o h => by simp [lastResultFor] at h⟩
  | tr :: rest, m, m', hok, i, td, hget => by
    simp only [List.foldlM_cons] at hok
    obtain ⟨m1, h1, h2⟩ := exceptBind_ok hok
    obtain ⟨md1, hmd1, hent⟩ := applyResult_entry m m1 tr h1 i t td hget
    have hrest := foldResults_entry t rest m1 m' h2 i _ hent
    have hlrf : lastResultFor t (tr :: rest) =
        match lastResultFor t rest with
        | some x => some x
        | none =>
          match lastMatchIn t tr with
          | some o => some (tr, o)
          | none => none := by
      unfold lastResultFor
      simp only [List.foldl_cons]
      cases hb : lastMatchIn t tr with
      | some o =>
        simp only [hb]
        rw [foldResult_start t rest (some (tr, o))]
      | none =>
        simp only [hb]
        exact foldResult_start t rest none
    constructor
    · intro hnone
      rw [hlrf] at hnone
      cases hr : lastResultFor t rest with
      | some x => rw [hr] at hnone; simp at hnone
      | none =>
        rw [hr] at hnone
        cases hb : lastMatchIn t tr with
        | some o => rw [hb] at hnone; simp at hnone
        | none =>
          have := (hrest.1) hr
          rw [hb] at this
          exact this
    · intro tr' o' hsome
      rw [hlrf] at hsome
      cases hr : lastResultFor t rest with
      | some x =>
        rw [hr] at hsome
        simp only [Option.some.injEq] at hsome
        subst hsome
        obtain ⟨md', hmd', hfin⟩ := (hrest.2) tr' o' hr
        refine ⟨md', hmd', ?_⟩
        cases hb : lastMatchIn t tr with
        | some o2 => rw [hb] at hfin; rw [hfin]; simp [resUpd_resUpd]
        | none => rw [hb] at hfin; exact hfin
      | none =>
        rw [hr] at hsome
        cases hb : lastMatchIn t tr with
        | some o2 =>
          rw [hb] at hsome
          simp only [Option.some.injEq, Prod.mk.injEq] at hsome
          obtain ⟨he1, he2⟩ := hsome
          subst he1
          subst he2
          have := (hrest.1) hr
          rw [hb] at this
          exact ⟨md1, hmd1, this⟩
        | none => rw [hb] at hsome; simp at hsome

/-- Entries written by the build pass carry no output and no result
metadata. -/
theorem tmSet_none_fields (m : ToolMap) (k : JVal) (td : ToolData)
    (hm : ∀ p ∈ m, p.2.output = none ∧ p.2.result_metadata = none)
    (htd : td.output = none ∧ td.result_metadata = none) :
    ∀ p ∈ tmSet m k td, p.2.output = none ∧ p.2.result_metadata = none := by
  intro p hp
  unfold tmSet at hp
  split at hp
  · obtain ⟨q, hq, hpq⟩ := List.mem_map.mp hp
    by_cases hk : pyEq q.1 k
    · rw [← hpq]
      simp [hk, htd]
    · rw [← hpq]
      simp only [hk]
      simpa using hm q hq
  · rcases List.mem_append.mp hp with h | h
    · exact hm p h
    · rw [List.mem_singleton.mp h]
      exact htd

theorem addOneToolCall_none (ts : JVal) (acc : ToolMap) (tc : JObj)
    (acc' : ToolMap) (hok : addOneToolCall ts acc tc = .ok acc')
    (hm : ∀ p ∈ acc, p.2.output = none ∧ p.2.result_metadata = none) :
    ∀ p ∈ acc', p.2.output = none ∧ p.2.result_metadata = none := by
  simp only [addOneToolCall] at hok
  split at hok
  · simp only [Except.ok.injEq] at hok
    subst hok
    exact tmSet_none_fields _ _ _ hm ⟨rfl, rfl⟩
  · simp at hok

theorem addToolCallsOf_none (m : ToolMap) (am : JVal) (m' : ToolMap)
    (hok : addToolCallsOf m am = .ok m')
    (hm : ∀ p ∈ m, p.2.output = none ∧ p.2.result_metadata = none) :
    ∀ p ∈ m', p.2.output = none ∧ p.2.result_metadata = none := by
  simp only [addToolCallsOf] at hok
  obtain ⟨tcs, h1, h2⟩ := exceptBind_ok hok
  exact foldlM_except_invariant _ _
    (fun b a b' hstep hP => addOneToolCall_none _ b a b' hstep hP) tcs m m' h2 hm

/-- Every entry of the map built from the assistant messages has no output
and no result metadata. -/
theorem buildMap_none (ams : List JVal) (m' : ToolMap)
    (hok : ams.foldlM addToolCallsOf [] = .ok m') :
    ∀ p ∈ m', p.2.output = none ∧ p.2.result_metadata = none :=
  foldlM_except_invariant _ _
    (fun b a b' hstep hP => addToolCallsOf_none b a b' hstep hP) ams [] m' hok
    (by intro p hp; simp at hp)

theorem applyResult_length (m : ToolMap) (tr : JVal) (m' : ToolMap)
    (hok : applyResult m tr = .ok m') : m'.length = m.length := by
  simp only [applyResult] at hok
  obtain ⟨trc, h1, hok⟩ := exceptBind_ok hok
  obtain ⟨md, h2, hok⟩ := exceptBind_ok hok
  match trc with
  | .arr items =>
    exact foldlM_except_invariant _ (fun b => b.length = m.length)
      (fun b a b' hstep hP => (applyResultItem_length md tr b a b' hstep).trans hP)
      items m m' hok rfl
  | .null | .bool _ | .num _ | .str _ | .obj _ =>
    simp only [Except.ok.injEq] at hok
    rw [← hok]

theorem foldResults_length (trs : List JVal) (m m' : ToolMap)
    (hok : trs.foldlM applyResult m = .ok m') : m'.length = m.length :=
  foldlM_except_invariant _ (fun b => b.length = m.length)
    (fun b a b' hstep hP => (applyResult_length b a b' hstep).trans hP)
    trs m m' hok rfl

/-! ## Claim C8: unresolved tool calls -/

/-- Claim C8: a tool call registered in the turn's tool-call map that has no
correlating tool result anywhere in the turn's tool-result records still
produces exactly one tool span — the tool segment has one span per map entry,
at the call's position — and that span has an empty output string and no
latency field. -/
theorem unresolved_tool_call_span (iso : String → Option ℚ)
    (now session_id : String) (turn_num : Nat) (user_msg : JVal)
    (ams trs : List JVal) (spans : List JObj) (tmap0 : ToolMap)
    (hok : create_keywordsai_spans iso now session_id turn_num user_msg ams trs =
      .ok spans)
    (hmap0 : ams.foldlM addToolCallsOf [] = .ok tmap0)
    (i : Nat) (t : JVal) (td : ToolData) (hget : tmap0[i]? = some (t, td))
    (hno : lastResultFor t trs = none) :
    ∃ (chat : JObj) (think tool : List JObj) (sp : JObj),
      spans = chat :: (think ++ tool) ∧
      tool.length = tmap0.length ∧
      tool[i]? = some sp ∧
      jLookup sp "output" = some (.str "") ∧
      jLookup sp "latency" = none := by
  obtain ⟨ctx, chat, think, tool, tmap0', tmap, fi, hs, hc1, hc2, hc3, hc4,
    hthink, hmap0', hmap, htool, hfi, hl1, hl2, hl3, hl4, hl5⟩ :=
    create_decomp _ _ _ _ _ _ _ _ hok
  rw [hmap0] at hmap0'
  have hmapeq : tmap0' = tmap0 := (Except.ok.inj hmap0').symm
  rw [hmapeq] at hmap
  have hpres := (foldResults_entry t trs tmap0 tmap hmap i td hget).1 hno
  obtain ⟨us, hus, hlen, hidx⟩ := toolSpans_decomp _ _ _ _ _ htool
  have htooleq : tool = us := by simpa using hus
  subst htooleq
  obtain ⟨sp, hsp, hspi⟩ := hidx i t td hpres
  have hfields := buildMap_none ams tmap0 hmap0 (t, td) (List.getElem?_mem hget)
  obtain ⟨fin, fout, md', lat, hfin, hfout, hspdef, hnone⟩ :=
    toolSpanOf_decomp _ _ _ _ hsp
  obtain ⟨hmd', hlat⟩ := hnone (Or.inl hfields.2)
  subst hmd'
  subst hlat
  have hout0 : td.output = none := hfields.1
  rw [hout0] at hfout
  have hfout0 : fout = "" :=
    (Except.ok.inj ((rfl :
      format_tool_output td.name (optNull (none : Option JVal)) 4000 =
        Except.ok "") ▸ hfout)).symm
  subst hfout0
  subst hspdef
  refine ⟨chat, think, tool, _, hs, ?_, hspi, ?_, ?_⟩
  · rw [hlen]
    exact foldResults_length trs tmap0 tmap hmap
  · rfl
  · rfl

/-- Witness for C8: the call `t1` of the concrete turn has no result record,
and its unique tool span has empty output and no latency field. -/
theorem unresolved_tool_call_span_witness :
    ∃ (chat : JObj) (think tool : List JObj) (sp : JObj),
      c8spans = chat :: (think ++ tool) ∧
      tool.length = c8map.length ∧
      tool[0]? = some sp ∧
      jLookup sp "output" = some (.str "") ∧
      jLookup sp "latency" = none :=
  unresolved_tool_call_span isoNone "NOW" "sess" 1 cUser [cAsst] [] c8spans c8map
    (by rfl) (by rfl) 0 (.str "t1")
    ⟨.str "Bash", .obj [("command", .str "ls")], .str "t1", .str "T2",
      none, none, none⟩ (by rfl) rfl

/-! ## Claim C4 (amended): correlation within one turn -/

/-- Amended C4: for every tool call registered in the turn's map, if some
tool-result record of the same turn contains a correlating block — wherever
that record sits in the turn's record list, so in particular regardless of
arrival order relative to other results — the call's unique tool span
carries the formatted content of that (last such) block as its output. -/
theorem tool_correlation_within_turn (iso : String → Option ℚ)
    (now session_id : String) (turn_num : Nat) (user_msg : JVal)
    (ams trs : List JVal) (spans : List JObj) (tmap0 : ToolMap)
    (hok : create_keywordsai_spans iso now session_id turn_num user_msg ams trs =
      .ok spans)
    (hmap0 : ams.foldlM addToolCallsOf [] = .ok tmap0)
    (i : Nat) (t : JVal) (td : ToolData) (hget : tmap0[i]? = some (t, td))
    (tr : JVal) (o : JObj) (hfound : lastResultFor t trs = some (tr, o)) :
    ∃ (chat : JObj) (think tool : List JObj) (sp : JObj) (fout : String),
      spans = chat :: (think ++ tool) ∧
      tool.length = tmap0.length ∧
      tool[i]? = some sp ∧
      format_tool_output td.name (jPyGet o "content") 4000 = .ok fout ∧
      jLookup sp "output" = some (.str fout) := by
  obtain ⟨ctx, chat, think, tool, tmap0', tmap, fi, hs, hc1, hc2, hc3, hc4,
    hthink, hmap0', hmap, htool, hfi, hl1, hl2, hl3, hl4, hl5⟩ :=
    create_decomp _ _ _ _ _ _ _ _ hok
  rw [hmap0] at hmap0'
  have hmapeq : tmap0' = tmap0 := (Except.ok.inj hmap0').symm
  rw [hmapeq] at hmap
  obtain ⟨md, hmd, hpres⟩ :=
    (foldResults_entry t trs tmap0 tmap hmap i td hget).2 tr o hfound
  obtain ⟨us, hus, hlen, hidx⟩ := toolSpans_decomp _ _ _ _ _ htool
  have htooleq : tool = us := by simpa using hus
  subst htooleq
  obtain ⟨sp, hsp, hspi⟩ := hidx i t _ hpres
  obtain ⟨fin, fout, md', lat, hfin, hfout, hspdef, hnone⟩ :=
    toolSpanOf_decomp _ _ _ _ hsp
  subst hspdef
  refine ⟨chat, think, tool, _, fout, hs, ?_, hspi, ?_, ?_⟩
  · rw [hlen]
    exact foldResults_length trs tmap0 tmap hmap
  · exact hfout
  · rw [applyLatencyField_lookup _ _ _ (by decide)]
    cases md' with
    | none => rfl
    | some m => rw [jLookup_jSet_ne _ _ _ _ (by decide)]; rfl

/-- Witness for the amended C4: in the concrete turn, the result record for
`t1` correlates and the tool span's output is the formatted result content
`"ok"`. -/
theorem tool_correlation_within_turn_witness :
    ∃ (chat : JObj) (think tool : List JObj) (sp : JObj) (fout : String),
      c10spans = chat :: (think ++ tool) ∧
      tool.length = c8map.length ∧
      tool[0]? = some sp ∧
      format_tool_output (.str "Bash")
        (jPyGet [("type", .str "tool_result"), ("tool_use_id", .str "t1"),
          ("content", .str "ok")] "content") 4000 = .ok fout ∧
      jLookup sp "output" = some (.str fout) :=
  tool_correlation_within_turn isoNone "NOW" "sess" 1 cUser [cAsst] [cToolRes]
    c10spans c8map (by rfl) (by rfl) 0 (.str "t1")
    ⟨.str "Bash", .obj [("command", .str "ls")], .str "t1", .str "T2",
      none, none, none⟩ (by rfl) cToolRes
    [("type", .str "tool_result"), ("tool_use_id", .str "t1"),
      ("content", .str "ok")] (by rfl)

/-! ## The turn loop numbers emissions consecutively -/

/-- Every span of a compiled turn carries the turn's trace identifier. -/
theorem create_spans_trace (iso : String → Option ℚ) (now session_id : String)
    (turn_num : Nat) (user_msg : JVal) (ams trs : List JVal) (spans : List JObj)
    (hok : create_keywordsai_spans iso now session_id turn_num user_msg ams trs =
      .ok spans) :
    ∀ sp ∈ spans, jLookup sp "trace_unique_id" =
      some (.str (session_id ++ "_turn_" ++ toString turn_num)) := by
  obtain ⟨ctx, chat, think, tool, tmap0, tmap, fi, hs, hc1, hc2, hc3, hc4,
    hthink, hmap0, hmap, htool, hfi, hl1, hl2, hl3, hl4, hl5⟩ :=
    create_decomp _ _ _ _ _ _ _ _ hok
  subst hs
  intro sp hsp
  rcases List.mem_cons.mp hsp with hc | hm
  · subst hc
    exact hl4
  · rcases List.mem_append.mp hm with ht | ht
    · rcases thinkingSpans_mem _ _ _ _ hthink sp ht with h0 | ⟨h1, _, _⟩
      · simp at h0
      · rw [← hc1]
        exact h1
    · rcases toolSpans_mem _ _ _ _ _ htool sp ht with h0 | ⟨h1, _, _⟩
      · simp at h0
      · rw [← hc1]
        exact h1

theorem emitTurn_numbered (ctx : RunCtx) (tp : Nat) (user : JVal)
    (assts trs : List JVal) (ems ems' : List Emission) (tp' : Nat)
    (hok : emitTurn ctx tp user assts trs ems = .ok (tp', ems'))
    (hnum : ems.map Emission.turn_num = List.range' (ctx.turn_count + 1) tp)
    (htr : ∀ em ∈ ems, ∀ sp ∈ em.spans, jLookup sp "trace_unique_id" =
      some (.str (ctx.session_id ++ "_turn_" ++ toString em.turn_num))) :
    tp' = tp + 1 ∧
    ems'.map Emission.turn_num = List.range' (ctx.turn_count + 1) tp' ∧
    ∀ em ∈ ems', ∀ sp ∈ em.spans, jLookup sp "trace_unique_id" =
      some (.str (ctx.session_id ++ "_turn_" ++ toString em.turn_num)) := by
  simp only [emitTurn] at hok
  obtain ⟨spans, hsp, hok⟩ := exceptBind_ok hok
  simp only [Except.ok.injEq, Prod.mk.injEq] at hok
  obtain ⟨h1, h2⟩ := hok
  subst h1
  subst h2
  refine ⟨rfl, ?_, ?_⟩
  · rw [List.map_append, hnum]
    have : List.range' (ctx.turn_count + 1) (tp + 1) =
        List.range' (ctx.turn_count + 1) tp ++ [ctx.turn_count + 1 + 1 * tp] :=
      List.range'_concat _ _
    rw [this]
    simp [Nat.add_comm, Nat.add_assoc, Nat.add_left_comm]
  · intro em hem sp hsp'
    rcases List.mem_append.mp hem with h | h
    · exact htr em h sp hsp'
    · rw [List.mem_singleton.mp h] at hsp' ⊢
      exact create_spans_trace _ _ _ _ _ _ _ _ hsp sp hsp'

/-- One loop step preserves consecutive numbering of the emissions. -/
theorem stepAsm_numbered (ctx : RunCtx) (s s' : AsmState) (msg : JVal)
    (hok : stepAsm ctx s msg = .ok s')
    (hP : emissionsNumbered ctx.session_id ctx.turn_count s) :
    emissionsNumbered ctx.session_id ctx.turn_count s' := by
  obtain ⟨hnum, htr⟩ := hP
  simp only [stepAsm] at hok
  obtain ⟨role, hrole, hok⟩ := exceptBind_ok hok
  split at hok
  · -- user-role record
    obtain ⟨itr, hitr, hok⟩ := exceptBind_ok hok
    split at hok
    · -- tool result: nothing changes
      simp only [Except.ok.injEq] at hok
      subst hok
      exact ⟨hnum, htr⟩
    · -- plain user message
      obtain ⟨assts, hassts, hok⟩ := exceptBind_ok hok
      split at hok
      · -- a turn is closed and emitted
        split at hok
        · rename_i u hu
          obtain ⟨pr, hpr, hok⟩ := exceptBind_ok hok
          simp only [Except.ok.injEq] at hok
          subst hok
          obtain ⟨htp, hn, ht⟩ := emitTurn_numbered ctx s.turns_processed u assts
            s.current_tool_results s.emissions pr.2 pr.1 hpr hnum htr
          exact ⟨hn, ht⟩
        · obtain ⟨pr, hpr, hok⟩ := exceptBind_ok hok
          simp only [Except.ok.injEq] at hok
          subst hok
          rw [show pr = (s.turns_processed, s.emissions) from (Except.ok.inj hpr).symm]
          exact ⟨hnum, htr⟩
      · obtain ⟨pr, hpr, hok⟩ := exceptBind_ok hok
        simp only [Except.ok.injEq] at hok
        subst hok
        rw [show pr = (s.turns_processed, s.emissions) from (Except.ok.inj hpr).symm]
        exact ⟨hnum, htr⟩
  · split at hok
    · -- assistant-role record: emissions unchanged in every branch
      obtain ⟨mid, hmid, hok⟩ := exceptBind_ok hok
      split at hok
      · simp only [Except.ok.injEq] at hok
        subst hok
        exact ⟨hnum, htr⟩
      · split at hok
        · simp only [Except.ok.injEq] at hok
          subst hok
          exact ⟨hnum, htr⟩
        · obtain ⟨assts, hassts, hok⟩ := exceptBind_ok hok
          simp only [Except.ok.injEq] at hok
          subst hok
          exact ⟨hnum, htr⟩
    · simp only [Except.ok.injEq] at hok
      subst hok
      exact ⟨hnum, htr⟩

theorem assembleLoop_numbered (ctx : RunCtx) :
    ∀ (msgs : List JVal) (s fs : AsmState),
      assembleLoop ctx s msgs = .ok fs →
      emissionsNumbered ctx.session_id ctx.turn_count s →
      emissionsNumbered ctx.session_id ctx.turn_count fs
  | [], s, fs, hok, hP => by
    simp only [assembleLoop, Except.ok.injEq] at hok
    subst hok
    exact hP
  | m :: rest, s, fs, hok, hP => by
    simp only [assembleLoop] at hok
    obtain ⟨s1, h1, h2⟩ := exceptBind_ok hok
    exact assembleLoop_numbered ctx rest s1 fs h2 (stepAsm_numbered ctx s s1 m h1 hP)

theorem finishRun_numbered (ctx : RunCtx) (s : AsmState) (tp : Nat)
    (ems : List Emission) (hok : finishRun ctx s = .ok (tp, ems))
    (hP : emissionsNumbered ctx.session_id ctx.turn_count s) :
    ems.map Emission.turn_num = List.range' (ctx.turn_count + 1) tp ∧
    ∀ em ∈ ems, ∀ sp ∈ em.spans, jLookup sp "trace_unique_id" =
      some (.str (ctx.session_id ++ "_turn_" ++ toString em.turn_num)) := by
  obtain ⟨hnum, htr⟩ := hP
  simp only [finishRun] at hok
  obtain ⟨assts, hassts, hok⟩ := exceptBind_ok hok
  split at hok
  · split at hok
    · rename_i u hu
      obtain ⟨htp, hn, ht⟩ := emitTurn_numbered ctx s.turns_processed u assts
        s.current_tool_results s.emissions ems tp hok hnum htr
      exact ⟨hn, ht⟩
    · simp only [Except.ok.injEq, Prod.mk.injEq] at hok
      obtain ⟨h1, h2⟩ := hok
      subst h1
      subst h2
      exact ⟨hnum, htr⟩
  · simp only [Except.ok.injEq, Prod.mk.injEq] at hok
    obtain ⟨h1, h2⟩ := hok
    subst h1
    subst h2
    exact ⟨hnum, htr⟩

/-! ## Claim C2: turn numbering and cursor persistence -/

/-- Counterexample to C2 as stated: when none of the new lines parses as a
record (here the single new line is non-blank but fails `json.loads`, e.g.
a truncated write), the run completes `n = 0` turns but `save_state` is
never reached (source lines 568-569), so the persisted state keeps
`last_line = 1`, which is not the file's total line count 2. -/
theorem turn_numbering_counterexample :
    process_transcript isoNone "NOW" (fun _ => true) "sess"
      [PLine.msg cUser, PLine.bad] (some ⟨1, 0, "u"⟩) =
      .ok (0, some ⟨1, 0, "u"⟩, []) ∧
    ([PLine.msg cUser, PLine.bad] : List PLine).length = 2 ∧
    (1 : Nat) ≠ 2 :=
  ⟨rfl, rfl, by decide⟩

/-- Amended C2: in a run that actually processes something — the cursor is
below the total line count and at least one new line parses as a record —
the emitted turns are numbered `k+1, ..., k+n` in order (each span carrying
the matching trace identifier), and the persisted state records
`turn_count = k + n` and `last_line` equal to the total line count. -/
theorem turn_numbering_amended (iso : String → Option ℚ) (now : String)
    (emitOk : Nat → Bool) (session_id : String) (plines : List PLine)
    (ll k : Nat) (u : String) (n : Nat) (st' : Option SessionState)
    (ems : List Emission)
    (hok : process_transcript iso now emitOk session_id plines
      (some ⟨ll, k, u⟩) = .ok (n, st', ems))
    (hlt : ll < plines.length)
    (hne : parsedMessages (plines.drop ll) ≠ []) :
    st' = some ⟨plines.length, k + n, now⟩ ∧
    ems.map Emission.turn_num = List.range' (k + 1) n ∧
    ∀ em ∈ ems, ∀ sp ∈ em.spans, jLookup sp "trace_unique_id" =
      some (.str (session_id ++ "_turn_" ++ toString em.turn_num)) := by
  simp only [process_transcript] at hok
  have h1 : ¬(plines.length ≤ ll) := by omega
  rw [if_neg (by simpa using h1)] at hok
  have h2 : (parsedMessages (plines.drop ll)).isEmpty = false := by
    cases he : parsedMessages (plines.drop ll) with
    | nil => exact absurd he hne
    | cons a l => rfl
  rw [if_neg (by simp [h2])] at hok
  obtain ⟨fs, hloop, hok⟩ := exceptBind_ok hok
  obtain ⟨pr, hfin, hok⟩ := exceptBind_ok hok
  simp only [Except.ok.injEq, Prod.mk.injEq] at hok
  obtain ⟨hn, hst, hems⟩ := hok
  subst hn
  subst hst
  subst hems
  have hstart : emissionsNumbered session_id k asmStart := ⟨rfl, by simp [asmStart]⟩
  have hloopP := assembleLoop_numbered ⟨iso, now, emitOk, session_id, k⟩ _ _ _
    hloop hstart
  have hfinP := finishRun_numbered ⟨iso, now, emitOk, session_id, k⟩ fs pr.1 pr.2
    hfin hloopP
  exact ⟨rfl, hfinP.1, hfinP.2⟩

/-- Witness for the amended C2: after a previous run persisted
`turn_count = 2`, a run over one further complete turn emits exactly turn 3
and persists `last_line = 2`, `turn_count = 3`. -/
theorem turn_numbering_amended_witness :
    (some (⟨2, 3, "NOW"⟩ : SessionState) : Option SessionState) =
      some ⟨([PLine.msg cUser, PLine.msg cAsst] : List PLine).length,
        2 + 1, "NOW"⟩ ∧
    c2ems.map Emission.turn_num = List.range' (2 + 1) 1 ∧
    ∀ em ∈ c2ems, ∀ sp ∈ em.spans, jLookup sp "trace_unique_id" =
      some (.str ("sess" ++ "_turn_" ++ toString em.turn_num)) :=
  turn_numbering_amended isoNone "NOW" (fun _ => true) "sess"
    [.msg cUser, .msg cAsst] 0 2 "u" 1 (some ⟨2, 3, "NOW"⟩) c2ems
    (by rfl) (by decide) (fun h => List.noConfusion h)

/-! ## Claim C6: dangling user message at end of stream -/

/-- Claim C6: when the loop ends with an open turn that has a user message
but whose assistant list finalizes to empty, the final turn is not compiled —
the run's emissions are exactly the loop's — yet the persisted state still
advances the cursor to the total line count (the cursor is never rolled
back). -/
theorem dangling_user_turn_deferred (iso : String → Option ℚ) (now : String)
    (emitOk : Nat → Bool) (session_id : String) (plines : List PLine)
    (ll k : Nat) (u : String) (fs : AsmState) (n : Nat)
    (st' : Option SessionState) (ems : List Emission)
    (hok : process_transcript iso now emitOk session_id plines
      (some ⟨ll, k, u⟩) = .ok (n, st', ems))
    (hloop : assembleLoop ⟨iso, now, emitOk, session_id, k⟩ asmStart
      (parsedMessages (plines.drop ll)) = .ok fs)
    (huser : pyTruthyOpt fs.current_user = true)
    (hassts : finalizeAssistants fs = .ok []) :
    n = fs.turns_processed ∧ ems = fs.emissions ∧
    st' = some ⟨plines.length, k + fs.turns_processed, now⟩ := by
  simp only [process_transcript, Option.map_some', Option.getD_some] at hok
  by_cases h1 : plines.length ≤ ll
  · have hdrop : plines.drop ll = [] := List.drop_eq_nil_of_le h1
    rw [hdrop] at hloop
    simp only [parsedMessages, List.filterMap_nil, assembleLoop,
      Except.ok.injEq] at hloop
    rw [← hloop] at huser
    simp [asmStart, pyTruthyOpt] at huser
  · rw [if_neg (by simpa using h1)] at hok
    by_cases h2 : (parsedMessages (plines.drop ll)).isEmpty
    · have hnil : parsedMessages (plines.drop ll) = [] := by
        cases he : parsedMessages (plines.drop ll) with
        | nil => rfl
        | cons a l => rw [he] at h2; simp [List.isEmpty] at h2
      rw [hnil] at hloop
      simp only [assembleLoop, Except.ok.injEq] at hloop
      rw [← hloop] at huser
      simp [asmStart, pyTruthyOpt] at huser
    · rw [if_neg (by simpa using h2)] at hok
      obtain ⟨fs', hloop', hok⟩ := exceptBind_ok hok
      rw [hloop] at hloop'
      have hfs : fs' = fs := (Except.ok.inj hloop').symm
      subst hfs
      obtain ⟨pr, hfin, hok⟩ := exceptBind_ok hok
      simp only [finishRun] at hfin
      obtain ⟨assts, hassts', hfin⟩ := exceptBind_ok hfin
      rw [hassts] at hassts'
      have hae : assts = [] := (Except.ok.inj hassts').symm
      subst hae
      simp only [List.isEmpty_nil, Bool.not_true, Bool.and_false,
        Bool.false_eq_true, if_neg, not_false_eq_true, Except.ok.injEq] at hfin
      simp only [Except.ok.injEq, Prod.mk.injEq] at hok
      obtain ⟨hn, hst, hems⟩ := hok
      have hpr : pr = (fs'.turns_processed, fs'.emissions) := hfin.symm
      subst hpr
      exact ⟨hn.symm, hems.symm, hst.symm⟩

/-- Witness for C6: a single dangling user line produces no emission, yet
the persisted cursor covers the whole file. -/
theorem dangling_user_turn_deferred_witness :
    (0 = c6fs.turns_processed ∧ ([] : List Emission) = c6fs.emissions ∧
      (some (⟨1, 0, "NOW"⟩ : SessionState) : Option SessionState) =
        some ⟨([PLine.msg cUser] : List PLine).length,
          0 + c6fs.turns_processed, "NOW"⟩) :=
  dangling_user_turn_deferred isoNone "NOW" (fun _ => true) "sess"
    [PLine.msg cUser] 0 0 "u" c6fs 0 (some ⟨1, 0, "NOW"⟩) []
    (by rfl) (by rfl) (by rfl) (by rfl)

/-! ## Claim C7: emission failures do not affect the run -/

theorem finalizeAssistants_remap (e : Nat → Bool) (s : AsmState) :
    finalizeAssistants (remapState e s) = finalizeAssistants s := rfl

theorem emitTurn_oracle (iso : String → Option ℚ) (now sid : String) (k : Nat)
    (e₁ e₂ : Nat → Bool) (tp : Nat) (u : JVal) (assts trs : List JVal)
    (ems : List Emission) (tp' : Nat) (ems' : List Emission)
    (hok : emitTurn ⟨iso, now, e₁, sid, k⟩ tp u assts trs ems = .ok (tp', ems')) :
    emitTurn ⟨iso, now, e₂, sid, k⟩ tp u assts trs (ems.map (reOk e₂)) =
      .ok (tp', ems'.map (reOk e₂)) := by
  simp only [emitTurn] at hok ⊢
  obtain ⟨spans, hsp, hok⟩ := exceptBind_ok hok
  simp only [Except.ok.injEq, Prod.mk.injEq] at hok
  obtain ⟨h1, h2⟩ := hok
  subst h1
  subst h2
  rw [hsp]
  simp [Bind.bind, Except.bind, reOk]

theorem remapState_fields (e : Nat → Bool) (s : AsmState) :
    (remapState e s).turns_processed = s.turns_processed ∧
    (remapState e s).current_user = s.current_user ∧
    (remapState e s).current_assistants = s.current_assistants ∧
    (remapState e s).current_assistant_parts = s.current_assistant_parts ∧
    (remapState e s).current_msg_id = s.current_msg_id ∧
    (remapState e s).current_tool_results = s.current_tool_results ∧
    (remapState e s).emissions = s.emissions.map (reOk e) :=
  ⟨rfl, rfl, rfl, rfl, rfl, rfl, rfl⟩

theorem finalizeAssistants_eta (s : AsmState) (tp : Nat) (cu : Option JVal)
    (tr : List JVal) (ems : List Emission) :
    finalizeAssistants ⟨tp, cu, s.current_assistants, s.current_assistant_parts,
      s.current_msg_id, tr, ems⟩ = finalizeAssistants s := rfl

theorem stepAsm_oracle (iso : String → Option ℚ) (now sid : String) (k : Nat)
    (e₁ e₂ : Nat → Bool) (s s' : AsmState) (msg : JVal)
    (hok : stepAsm ⟨iso, now, e₁, sid, k⟩ s msg = .ok s') :
    stepAsm ⟨iso, now, e₂, sid, k⟩ (remapState e₂ s) msg =
      .ok (remapState e₂ s') := by
  simp only [stepAsm] at hok ⊢
  obtain ⟨role, hrole, hok⟩ := exceptBind_ok hok
  split at hok
  · rename_i hu
    obtain ⟨itr, hitr, hok⟩ := exceptBind_ok hok
    split at hok
    · rename_i hi
      simp only [Except.ok.injEq] at hok
      subst hok
      simp [hrole, Bind.bind, Except.bind, hu, hitr, hi, remapState, reOk]
    · rename_i hi
      obtain ⟨assts, hassts, hok⟩ := exceptBind_ok hok
      split at hok
      · rename_i hcond
        split at hok
        · rename_i u hu'
          obtain ⟨pr, hpr, hok⟩ := exceptBind_ok hok
          simp only [Except.ok.injEq] at hok
          subst hok
          have hem := emitTurn_oracle iso now sid k e₁ e₂ s.turns_processed u
            assts s.current_tool_results s.emissions pr.1 pr.2 hpr
          simp [hrole, Bind.bind, Except.bind, hu, hitr, hi,
            finalizeAssistants_eta, hassts, remapState, reOk, hcond, hu', hem]
          intro h
          rw [hu'] at hcond
          have hc := hcond
          simp only [Bool.and_eq_true] at hc
          have he := h hc.1
          subst he
          simp at hc
        · rename_i hnone
          rw [hnone] at hcond
          simp [pyTruthyOpt] at hcond
      · rename_i hcond
        simp only [Bind.bind, Except.bind, Except.ok.injEq] at hok
        subst hok
        simp [hrole, Bind.bind, Except.bind, hu, hitr, hi,
          finalizeAssistants_eta, hassts, remapState, reOk, hcond]
  · rename_i hu
    split at hok
    · rename_i ha
      obtain ⟨mid, hmid, hok⟩ := exceptBind_ok hok
      split at hok
      · rename_i hfalsy
        simp only [Except.ok.injEq] at hok
        subst hok
        simp [hrole, Bind.bind, Except.bind, hu, ha, hmid, hfalsy,
          remapState, reOk]
      · split at hok
        · rename_i hfalsy heq
          simp only [Except.ok.injEq] at hok
          subst hok
          simp [hrole, Bind.bind, Except.bind, hu, ha, hmid, hfalsy, heq,
            remapState, reOk]
        · rename_i hfalsy heq
          obtain ⟨assts, hassts, hok⟩ := exceptBind_ok hok
          simp only [Except.ok.injEq] at hok
          subst hok
          simp [hrole, Bind.bind, Except.bind, hu, ha, hmid, hfalsy, heq,
            finalizeAssistants_eta, hassts, remapState, reOk]
    · rename_i ha
      simp only [Except.ok.injEq] at hok
      subst hok
      simp [hrole, Bind.bind, Except.bind, hu, ha, remapState, reOk]

theorem assembleLoop_oracle (iso : String → Option ℚ) (now sid : String)
    (k : Nat) (e₁ e₂ : Nat → Bool) :
    ∀ (msgs : List JVal) (s fs : AsmState),
      assembleLoop ⟨iso, now, e₁, sid, k⟩ s msgs = .ok fs →
      assembleLoop ⟨iso, now, e₂, sid, k⟩ (remapState e₂ s) msgs =
        .ok (remapState e₂ fs)
  | [], s, fs, hok => by
    simp only [assembleLoop, Except.ok.injEq] at hok ⊢
    rw [hok]
  | m :: rest, s, fs, hok => by
    simp only [assembleLoop] at hok ⊢
    obtain ⟨s1, h1, h2⟩ := exceptBind_ok hok
    rw [stepAsm_oracle iso now sid k e₁ e₂ s s1 m h1]
    simp only [Bind.bind, Except.bind]
    exact assembleLoop_oracle iso now sid k e₁ e₂ rest s1 fs h2

theorem finishRun_oracle (iso : String → Option ℚ) (now sid : String) (k : Nat)
    (e₁ e₂ : Nat → Bool) (s : AsmState) (pr : Nat × List Emission)
    (hok : finishRun ⟨iso, now, e₁, sid, k⟩ s = .ok pr) :
    finishRun ⟨iso, now, e₂, sid, k⟩ (remapState e₂ s) =
      .ok (pr.1, pr.2.map (reOk e₂)) := by
  simp only [finishRun] at hok ⊢
  obtain ⟨assts, hassts, hok⟩ := exceptBind_ok hok
  rw [finalizeAssistants_remap, hassts]
  simp only [Bind.bind, Except.bind]
  split at hok
  · rename_i hcond
    rw [if_pos (show (pyTruthyOpt (remapState e₂ s).current_user &&
      !assts.isEmpty) = true from hcond)]
    split at hok
    · rename_i u hu'
      rw [show (remapState e₂ s).current_user = some u from hu']
      exact emitTurn_oracle iso now sid k e₁ e₂ s.turns_processed u assts
        s.current_tool_results s.emissions pr.1 pr.2 hok
    · rename_i hnone
      rw [hnone] at hcond
      simp [pyTruthyOpt] at hcond
  · rename_i hcond
    rw [if_neg (show ¬(pyTruthyOpt (remapState e₂ s).current_user &&
      !assts.isEmpty) = true from hcond)]
    have hpr : pr = (s.turns_processed, s.emissions) := (Except.ok.inj hok).symm
    subst hpr
    rfl

/-- Claim C7: the outcome of the outbound POSTs never influences the run.
Whatever the emission oracle reports — in particular when some or all
emissions fail — the run returns the same turn count, persists the same
session state, and attempts exactly the same span batches for the same
turns; only the recorded success flags differ. -/
theorem emission_failure_independence (iso : String → Option ℚ) (now : String)
    (session_id : String) (plines : List PLine) (sess : Option SessionState)
    (e₁ e₂ : Nat → Bool) (n : Nat) (st' : Option SessionState)
    (ems : List Emission)
    (hok : process_transcript iso now e₁ session_id plines sess =
      .ok (n, st', ems)) :
    process_transcript iso now e₂ session_id plines sess =
      .ok (n, st', ems.map (reOk e₂)) := by
  simp only [process_transcript] at hok ⊢
  split at hok
  · rename_i hc1
    simp only [Except.ok.injEq, Prod.mk.injEq] at hok
    obtain ⟨h1, h2, h3⟩ := hok
    subst h1
    subst h2
    subst h3
    rw [if_pos hc1]
    simp
  · rename_i hc1
    split at hok
    · rename_i hc2
      simp only [Except.ok.injEq, Prod.mk.injEq] at hok
      obtain ⟨h1, h2, h3⟩ := hok
      subst h1
      subst h2
      subst h3
      rw [if_neg hc1, if_pos hc2]
      simp
    · rename_i hc2
      obtain ⟨fs, hloop, hok⟩ := exceptBind_ok hok
      obtain ⟨pr, hfin, hok⟩ := exceptBind_ok hok
      simp only [Except.ok.injEq, Prod.mk.injEq] at hok
      obtain ⟨h1, h2, h3⟩ := hok
      subst h1
      subst h2
      subst h3
      rw [if_neg hc1, if_neg hc2]
      rw [show assembleLoop ⟨iso, now, e₂, session_id,
          (sess.map SessionState.turn_count).getD 0⟩ asmStart
          (parsedMessages (plines.drop ((sess.map SessionState.last_line).getD 0))) =
          .ok (remapState e₂ fs) from
        assembleLoop_oracle iso now session_id _ e₁ e₂ _ asmStart fs hloop]
      simp only [Bind.bind, Except.bind]
      rw [finishRun_oracle iso now session_id _ e₁ e₂ fs pr hfin]

/-- Witness for C7: a run in which every POST fails returns the same count
and persists the same state as the all-success run, with the same span
batches. -/
theorem emission_failure_independence_witness :
    process_transcript isoNone "NOW" (fun _ => true) "sess"
      [.msg cUser, .msg cAsst] (some ⟨0, 2, "u"⟩) =
      .ok (1, some ⟨2, 3, "NOW"⟩, c7ems.map (reOk (fun _ => true))) :=
  emission_failure_independence isoNone "NOW" "sess" [.msg cUser, .msg cAsst]
    (some ⟨0, 2, "u"⟩) (fun _ => false) (fun _ => true) 1
    (some ⟨2, 3, "NOW"⟩) c7ems (by rfl)

/-! ## Claim C5: fragments without a message identifier -/

/-- Counterexample to C5 as stated: the id-less fragment `cA0` (text block
`A`) arrives when no identified assistant message is open; after the later
identified fragment `cA1` the pending parts hold only `cA1`, and the
finalized assistant message of the turn contains only block `B` — the
id-less fragment's block was silently dropped (the guard of source lines
636-638 requires a truthy `current_msg_id`). -/
theorem idless_fragment_dropped_counterexample :
    Except.map (fun fs => fs.current_assistant_parts) c5run = .ok [cA1] ∧
    Except.bind c5run finalizeAssistants = .ok [cA1] ∧
    get_content cA1 =
      .ok (.arr [.obj [("type", .str "text"), ("text", .str "B")]]) ∧
    ¬((JVal.obj [("type", .str "text"), ("text", .str "A")]) ∈
      ([.obj [("type", .str "text"), ("text", .str "B")]] : List JVal)) :=
  ⟨rfl, rfl, rfl, by simp⟩

/-- Amended C5: an assistant fragment without a truthy message identifier is
always treated as a continuation of the currently open parts list — it
changes nothing else of the loop state — and its blocks reach a finalized
assistant message only when an identified message is open: when
`current_msg_id` is falsy, finalization ignores the pending parts entirely. -/
theorem idless_fragment_continuation (ctx : RunCtx) (s : AsmState)
    (msg role mid : JVal)
    (hrole : getRole msg = .ok role)
    (hnotuser : pyEq role (.str "user") = false)
    (hasst : pyEq role (.str "assistant") = true)
    (hmid : msgIdOf msg = .ok mid)
    (hfalsy : pyTruthy mid = false) :
    stepAsm ctx s msg =
      .ok { s with current_assistant_parts := s.current_assistant_parts ++ [msg] } ∧
    (pyTruthy s.current_msg_id = false →
      finalizeAssistants
        { s with current_assistant_parts := s.current_assistant_parts ++ [msg] } =
        .ok s.current_assistants) := by
  constructor
  · simp [stepAsm, hrole, Bind.bind, Except.bind, hnotuser, hasst, hmid, hfalsy]
  · intro h
    simp [finalizeAssistants, h]

/-- Witness for the amended C5: the concrete id-less fragment is appended as
a continuation, and with no identified message open it is dropped at
finalization. -/
theorem idless_fragment_continuation_witness :
    (stepAsm c6ctx asmStart cA0 =
      .ok { asmStart with
        current_assistant_parts := asmStart.current_assistant_parts ++ [cA0] } ∧
    (pyTruthy asmStart.current_msg_id = false →
      finalizeAssistants
        { asmStart with
          current_assistant_parts := asmStart.current_assistant_parts ++ [cA0] } =
        .ok asmStart.current_assistants)) :=
  idless_fragment_continuation c6ctx asmStart cA0 (.str "assistant") .null
    rfl rfl rfl rfl rfl

/-! ## Claim C4, counterexample: results crossing a turn boundary -/

/-- Counterexample to C4 as stated: in the concrete log the result record
for call `t1` appears only after `cUser2` has opened the next turn.  The
record does correlate with `t1` (second conjunct), yet the tool span of the
first turn is emitted with empty output — not with the formatted result
content `"ok"` — because `current_tool_results` was reset when the new turn
began (source line 621). -/
theorem tool_result_after_next_turn_dropped :
    emissionSpanField c4run 0 2 "output" = some (.str "") ∧
    lastMatchIn (.str "t1") cToolRes =
      some [("type", .str "tool_result"), ("tool_use_id", .str "t1"),
        ("content", .str "ok")] ∧
    format_tool_output (.str "Bash") (.str "ok") 4000 = .ok "ok" ∧
    JVal.str "" ≠ JVal.str "ok" :=
  ⟨rfl, rfl, rfl, by simp⟩

/-! ## Totality of the span compiler on well-formed input (claim C9) -/

theorem exists_ok_bind {α β : Type} {e : Except PyErr α} {f : α → Except PyErr β}
    (P : α → Prop) (he : ∃ a, e = .ok a ∧ P a)
    (hf : ∀ a, P a → ∃ b, f a = .ok b) : ∃ b, (e >>= f) = .ok b := by
  obtain ⟨a, ha, hp⟩ := he
  obtain ⟨b, hb⟩ := hf a hp
  exact ⟨b, by rw [ha]; simpa [Bind.bind, Except.bind] using hb⟩

theorem pyJoinNl_ok (l : List JVal) (h : ∀ p ∈ l, ∃ s, p = JVal.str s) :
    ∃ s, pyJoinNl l = .ok s := by
  induction l with
  | nil => exact ⟨"", rfl⟩
  | cons p rest ih =>
    obtain ⟨s, hs⟩ := h p (List.mem_cons_self p rest)
    subst hs
    cases rest with
    | nil => exact ⟨s, rfl⟩
    | cons q rest2 =>
      obtain ⟨t, ht⟩ := ih (fun x hx => h x (List.mem_cons_of_mem _ hx))
      exact ⟨s ++ "\n" ++ t, by simp [pyJoinNl, ht, Bind.bind, Except.bind]⟩

theorem textParts_str (items : List JVal) (h : items.all wfTextBlock = true) :
    ∀ p ∈ textParts items, ∃ s, p = JVal.str s := by
  intro p hp
  obtain ⟨item, hmem, hf⟩ := List.mem_filterMap.mp hp
  have hwf : wfTextBlock item = true := List.all_eq_true.mp h item hmem
  match item with
  | .obj o =>
    simp only [wfTextBlock] at hwf
    by_cases hty : pyEq (jPyGet o "type") (.str "text") = true
    · simp only [hty, if_true] at hwf
      simp only [hty, if_true, Option.some.injEq] at hf
      match hlk : jLookup o "text" with
      | some (.str s) =>
        exact ⟨s, by rw [← hf]; simp [jGetD, hlk]⟩
      | none =>
        exact ⟨"", by rw [← hf]; simp [jGetD, hlk]⟩
      | some (.null) => rw [hlk] at hwf; exact absurd hwf (by simp)
      | some (.bool b) => rw [hlk] at hwf; exact absurd hwf (by simp)
      | some (.num q) => rw [hlk] at hwf; exact absurd hwf (by simp)
      | some (.arr xs) => rw [hlk] at hwf; exact absurd hwf (by simp)
      | some (.obj oo) => rw [hlk] at hwf; exact absurd hwf (by simp)
    · simp only [hty, if_false] at hf
      exact absurd hf (by simp [Bool.not_eq_true] at hty; simp [hty])
  | .str s => exact ⟨s, by simpa using hf.symm⟩
  | .null => exact absurd hf (by simp)
  | .bool b => exact absurd hf (by simp)
  | .num q => exact absurd hf (by simp)
  | .arr xs => exact absurd hf (by simp)

theorem get_text_content_ok (v c : JVal) (hc : get_content v = .ok c)
    (hwf : wfContentVal c = true) : ∃ s, get_text_content v = .ok s := by
  match c with
  | .str s => exact ⟨s, by simp [get_text_content, hc, Bind.bind, Except.bind]⟩
  | .arr items =>
    obtain ⟨s, hs⟩ := pyJoinNl_ok (textParts items)
      (textParts_str items (by simpa [wfContentVal] using hwf))
    exact ⟨s, by simp [get_text_content, hc, hs, Bind.bind, Except.bind]⟩
  | .null => exact ⟨"", by simp [get_text_content, hc, Bind.bind, Except.bind]⟩
  | .bool b => exact ⟨"", by simp [get_text_content, hc, Bind.bind, Except.bind]⟩
  | .num q => exact ⟨"", by simp [get_text_content, hc, Bind.bind, Except.bind]⟩
  | .obj o => exact ⟨"", by simp [get_text_content, hc, Bind.bind, Except.bind]⟩

theorem wfUser_content (u : JVal) (h : wfUser u = true) :
    ∃ c, get_content u = .ok c ∧ wfContentVal c = true := by
  match u with
  | .obj o =>
    simp only [wfUser] at h
    match hm : jLookup o "message" with
    | some (.obj m) =>
      rw [hm] at h
      exact ⟨jPyGet m "content", by simp [get_content, hm], h⟩
    | none =>
      rw [hm] at h
      exact ⟨jPyGet o "content", by simp [get_content, hm], h⟩
    | some (.null) => rw [hm] at h; exact absurd h (by simp)
    | some (.bool b) => rw [hm] at h; exact absurd h (by simp)
    | some (.num q) => rw [hm] at h; exact absurd h (by simp)
    | some (.str s) => rw [hm] at h; exact absurd h (by simp)
    | some (.arr xs) => rw [hm] at h; exact absurd h (by simp)
  | .null => exact absurd h (by simp [wfUser])
  | .bool b => exact absurd h (by simp [wfUser])
  | .num q => exact absurd h (by simp [wfUser])
  | .str s => exact absurd h (by simp [wfUser])
  | .arr xs => exact absurd h (by simp [wfUser])

theorem wfAssistant_content (am : JVal) (h : wfAssistantMsg am = true) :
    ∃ c, get_content am = .ok c ∧ wfContentVal c = true ∧ wfToolBlocks c = true := by
  match am with
  | .obj o =>
    simp only [wfAssistantMsg] at h
    match hm : jLookup o "message" with
    | some (.obj m) =>
      rw [hm] at h
      simp only [Bool.and_eq_true] at h
      exact ⟨jPyGet m "content", by simp [get_content, hm], h.1.1, h.1.2⟩
    | none =>
      rw [hm] at h
      simp only [Bool.and_eq_true] at h
      exact ⟨jPyGet o "content", by simp [get_content, hm], h.1, h.2⟩
    | some (.null) => rw [hm] at h; exact absurd h (by simp)
    | some (.bool b) => rw [hm] at h; exact absurd h (by simp)
    | some (.num q) => rw [hm] at h; exact absurd h (by simp)
    | some (.str s) => rw [hm] at h; exact absurd h (by simp)
    | some (.arr xs) => rw [hm] at h; exact absurd h (by simp)
  | .null => exact ⟨.null, rfl, rfl, rfl⟩
  | .bool b => exact ⟨.null, rfl, rfl, rfl⟩
  | .num q => exact ⟨.null, rfl, rfl, rfl⟩
  | .str s => exact ⟨.null, rfl, rfl, rfl⟩
  | .arr xs => exact ⟨.null, rfl, rfl, rfl⟩

theorem wfRes_content (tr : JVal) (h : wfToolResultMsg tr = true) :
    ∃ c, get_content tr = .ok c ∧ wfResContent c = true := by
  match tr with
  | .obj o =>
    simp only [wfToolResultMsg, Bool.and_eq_true] at h
    obtain ⟨h1, _⟩ := h
    match hm : jLookup o "message" with
    | some (.obj m) =>
      rw [hm] at h1
      exact ⟨jPyGet m "content", by simp [get_content, hm], h1⟩
    | none =>
      rw [hm] at h1
      exact ⟨jPyGet o "content", by simp [get_content, hm], h1⟩
    | some (.null) => rw [hm] at h1; exact absurd h1 (by simp)
    | some (.bool b) => rw [hm] at h1; exact absurd h1 (by simp)
    | some (.num q) => rw [hm] at h1; exact absurd h1 (by simp)
    | some (.str s) => rw [hm] at h1; exact absurd h1 (by simp)
    | some (.arr xs) => rw [hm] at h1; exact absurd h1 (by simp)
  | .null => exact ⟨.null, rfl, rfl⟩
  | .bool b => exact ⟨.null, rfl, rfl⟩
  | .num q => exact ⟨.null, rfl, rfl⟩
  | .str s => exact ⟨.null, rfl, rfl⟩
  | .arr xs => exact ⟨.null, rfl, rfl⟩

theorem userTimestampOf_ok (u : JVal) (h : wfUser u = true) :
    ∃ t, userTimestampOf u = .ok t := by
  match u with
  | .obj o => exact ⟨jPyGet o "timestamp", rfl⟩
  | .null => exact absurd h (by simp [wfUser])
  | .bool b => exact absurd h (by simp [wfUser])
  | .num q => exact absurd h (by simp [wfUser])
  | .str s => exact absurd h (by simp [wfUser])
  | .arr xs => exact absurd h (by simp [wfUser])

theorem finalOutputOf_ok (ams : List JVal) (h : ams.all wfAssistantMsg = true) :
    ∃ s, finalOutputOf ams = .ok s := by
  unfold finalOutputOf
  match hl : ams.getLast? with
  | none => exact ⟨"", rfl⟩
  | some la =>
    have hmem : la ∈ ams := by
      obtain ⟨hne, heq⟩ := List.mem_getLast?_eq_getLast (l := ams) hl
      rw [heq]
      exact List.getLast_mem hne
    obtain ⟨c, hc, hcwf, _⟩ :=
      wfAssistant_content la (List.all_eq_true.mp h la hmem)
    exact get_text_content_ok la c hc hcwf

theorem firstAssistantInfo_ok (ams : List JVal) (h : ams.all wfAssistantMsg = true) :
    ∃ fi, firstAssistantInfo ams.head? = .ok fi ∧ wfUsage fi.usage = true := by
  match ams with
  | [] => exact ⟨firstInfoDefault, rfl, rfl⟩
  | am :: rest =>
    have hwf : wfAssistantMsg am = true :=
      List.all_eq_true.mp h am (List.mem_cons_self am rest)
    show ∃ fi, firstAssistantInfo (some am) = .ok fi ∧ wfUsage fi.usage = true
    by_cases ht : pyTruthy am = true
    · match am with
      | .obj o =>
        simp only [wfAssistantMsg] at hwf
        match hm : jLookup o "message" with
        | some (.obj m) =>
          rw [hm] at hwf
          simp only [Bool.and_eq_true] at hwf
          refine ⟨⟨jGetD m "model" (.str "claude"), jPyGet m "usage",
            jPyGet m "requestId", jPyGet m "stop_reason", jPyGet o "timestamp"⟩,
            ?_, hwf.2⟩
          simp [firstAssistantInfo, ht, hm]
        | none => exact ⟨firstInfoDefault, by simp [firstAssistantInfo, ht, hm], rfl⟩
        | some (.null) => rw [hm] at hwf; exact absurd hwf (by simp)
        | some (.bool b) => rw [hm] at hwf; exact absurd hwf (by simp)
        | some (.num q) => rw [hm] at hwf; exact absurd hwf (by simp)
        | some (.str s) => rw [hm] at hwf; exact absurd hwf (by simp)
        | some (.arr xs) => rw [hm] at hwf; exact absurd hwf (by simp)
      | .null => exact ⟨firstInfoDefault, by simp [firstAssistantInfo, ht], rfl⟩
      | .bool b => exact ⟨firstInfoDefault, by simp [firstAssistantInfo, ht], rfl⟩
      | .num q => exact ⟨firstInfoDefault, by simp [firstAssistantInfo, ht], rfl⟩
      | .str s => exact ⟨firstInfoDefault, by simp [firstAssistantInfo, ht], rfl⟩
      | .arr xs => exact ⟨firstInfoDefault, by simp [firstAssistantInfo, ht], rfl⟩
    · exact ⟨firstInfoDefault, by simp [firstAssistantInfo, ht], rfl⟩

theorem firstAssistantInfo_model (h? : Option JVal) (fi : FirstInfo)
    (hok : firstAssistantInfo h? = .ok fi) (hma : modelAbsent h? = true) :
    fi.model = .str "claude" := by
  match h? with
  | none =>
    have : firstInfoDefault = fi := by simpa [firstAssistantInfo] using hok
    rw [← this]
    rfl
  | some fa =>
    by_cases ht : pyTruthy fa = true
    · match fa with
      | .obj o =>
        simp only [modelAbsent] at hma
        match hm : jLookup o "message" with
        | some (.obj m) =>
          rw [hm] at hma
          simp only [firstAssistantInfo, ht, if_true, hm, Except.ok.injEq] at hok
          rw [← hok]
          have hnone : jLookup m "model" = none := by
            match hmm : jLookup m "model" with
            | none => rfl
            | some v => simp only [jHasKey, hmm] at hma; exact absurd hma (by simp)
          simp [jGetD, hnone]
        | none =>
          simp only [firstAssistantInfo, ht, if_true, hm, Except.ok.injEq] at hok
          rw [← hok]
          rfl
        | some (.null) =>
          rw [hm] at hma
          exact absurd hma (by simp)
        | some (.bool b) =>
          rw [hm] at hma
          exact absurd hma (by simp)
        | some (.num q) =>
          rw [hm] at hma
          exact absurd hma (by simp)
        | some (.str s) =>
          rw [hm] at hma
          exact absurd hma (by simp)
        | some (.arr xs) =>
          rw [hm] at hma
          exact absurd hma (by simp)
      | .null =>
        have : firstInfoDefault = fi := by simpa [firstAssistantInfo, ht] using hok
        rw [← this]; rfl
      | .bool b =>
        have : firstInfoDefault = fi := by simpa [firstAssistantInfo, ht] using hok
        rw [← this]; rfl
      | .num q =>
        have : firstInfoDefault = fi := by simpa [firstAssistantInfo, ht] using hok
        rw [← this]; rfl
      | .str s =>
        have : firstInfoDefault = fi := by simpa [firstAssistantInfo, ht] using hok
        rw [← this]; rfl
      | .arr xs =>
        have : firstInfoDefault = fi := by simpa [firstAssistantInfo, ht] using hok
        rw [← this]; rfl
    · have : firstInfoDefault = fi := by simpa [firstAssistantInfo, ht] using hok
      rw [← this]; rfl

theorem numish_pyAdd (a b : JVal) (ha : numish a = true) (hb : numish b = true) :
    ∃ q, pyAdd a b = .ok (.num q) ∧ numish (JVal.num q) = true := by
  simp only [numish, Option.isSome_iff_exists] at ha hb
  obtain ⟨x, hx⟩ := ha
  obtain ⟨y, hy⟩ := hb
  cases a <;> cases b <;> simp_all [pyToQ, pyAdd, numish]

theorem numish_pyGtZero (v : JVal) (h : numish v = true) :
    ∃ b, pyGtZero v = .ok b := by
  simp only [numish, Option.isSome_iff_exists] at h
  obtain ⟨q, hq⟩ := h
  exact ⟨decide (0 < q), by simp [pyGtZero, hq]⟩

theorem buildUsage_ok (u : JVal) (hwf : wfUsage u = true) (md : JObj) :
    ∃ r, buildUsage u md = .ok r := by
  by_cases ht : pyTruthy u = true
  · match u with
    | .obj o =>
      simp only [wfUsage, ht, Bool.not_true, Bool.false_eq_true, if_false,
        Bool.and_eq_true] at hwf
      obtain ⟨⟨⟨h1, h2⟩, h3⟩, h4⟩ := hwf
      obtain ⟨t, hadd, htn⟩ := numish_pyAdd _ _ h1 h2
      obtain ⟨b1, hb1⟩ := numish_pyGtZero _ htn
      obtain ⟨b2, hb2⟩ := numish_pyGtZero _ h3
      obtain ⟨b3, hb3⟩ := numish_pyGtZero _ h4
      cases hres : buildUsage (.obj o) md with
      | ok r => exact ⟨r, rfl⟩
      | error e =>
        simp [buildUsage, ht, hadd, hb1, hb2, hb3, Bind.bind, Except.bind] at hres
    | .null => exact absurd ht (by simp [pyTruthy])
    | .bool b => exact absurd hwf (by simp [wfUsage, ht])
    | .num q => exact absurd hwf (by simp [wfUsage, ht])
    | .str s => exact absurd hwf (by simp [wfUsage, ht])
    | .arr xs => exact absurd hwf (by simp [wfUsage, ht])
  · exact ⟨(none, md), by simp [buildUsage, ht]⟩

theorem format_tool_input_ok (name ti : JVal) (ml : Nat)
    (hwf : wfToolInput name ti = true) :
    ∃ s, format_tool_input name ti ml = .ok s := by
  cases hres : format_tool_input name ti ml with
  | ok r => exact ⟨r, rfl⟩
  | error e =>
    exfalso
    by_cases ht : pyTruthy ti = true
    · match ti with
      | .obj o =>
        simp only [wfToolInput] at hwf
        simp only [format_tool_input, ht, Bool.not_true, Bool.false_eq_true,
          if_false] at hres
        by_cases hw : (pyEq name (.str "Write") || pyEq name (.str "Edit") ||
            pyEq name (.str "MultiEdit")) = true
        · simp only [hw, if_true] at hwf hres
          match hc : jGetD o "content" (.str "") with
          | .str s =>
            rw [hc] at hres
            by_cases hcc : pyTruthy (JVal.str s) = true
            · simp only [hcc, if_true, pyLen, Bind.bind, Except.bind] at hres
              split at hres
              · simp [sliceConcat, Bind.bind, Except.bind] at hres
              · simp at hres
            · simp [hcc] at hres
          | .null =>
            rw [hc] at hwf hres
            simp only [Bool.not_eq_true'] at hwf
            simp [hwf] at hres
          | .bool b =>
            rw [hc] at hwf hres
            simp only [Bool.not_eq_true'] at hwf
            simp [hwf] at hres
          | .num q =>
            rw [hc] at hwf hres
            simp only [Bool.not_eq_true'] at hwf
            simp [hwf] at hres
          | .arr xs =>
            rw [hc] at hwf hres
            simp only [Bool.not_eq_true'] at hwf
            simp [hwf] at hres
          | .obj oo =>
            rw [hc] at hwf hres
            simp only [Bool.not_eq_true'] at hwf
            simp [hwf] at hres
        · simp only [Bool.not_eq_true] at hw
          simp only [hw, Bool.false_eq_true, if_false] at hres
          by_cases hr : pyEq name (.str "Read") = true
          · simp [hr] at hres
          · simp only [Bool.not_eq_true] at hr
            simp only [hr, Bool.false_eq_true, if_false] at hres
            by_cases hb : (pyEq name (.str "Bash") || pyEq name (.str "Shell")) = true
            · simp [hb] at hres
            · simp only [Bool.not_eq_true] at hb
              simp only [hb, Bool.false_eq_true, if_false] at hres
              split at hres <;> simp at hres
      | .null => exact absurd ht (by simp [pyTruthy])
      | .bool b =>
        simp only [format_tool_input, ht, Bool.not_true, Bool.false_eq_true,
          if_false] at hres
        split at hres <;> simp at hres
      | .num q =>
        simp only [format_tool_input, ht, Bool.not_true, Bool.false_eq_true,
          if_false] at hres
        split at hres <;> simp at hres
      | .str s =>
        simp only [format_tool_input, ht, Bool.not_true, Bool.false_eq_true,
          if_false] at hres
        split at hres <;> simp at hres
      | .arr xs =>
        simp only [format_tool_input, ht, Bool.not_true, Bool.false_eq_true,
          if_false] at hres
        split at hres <;> simp at hres
    · simp [format_tool_input, ht] at hres

theorem ftoList_ok (ml : Nat) :
    ∀ (items : List JVal), items.all wfTextBlock = true →
    ∀ (total : Nat) (parts : List JVal), (∀ p ∈ parts, ∃ s, p = JVal.str s) →
      ∃ r, ftoList ml items total parts = .ok r ∧ ∀ p ∈ r, ∃ s, p = JVal.str s := by
  intro items
  induction items with
  | nil => intro _ total parts hp; exact ⟨parts, rfl, hp⟩
  | cons item rest ih =>
    intro h total parts hp
    simp only [List.all_cons, Bool.and_eq_true] at h
    obtain ⟨hitem, hrest⟩ := h
    have happ : ∀ (t : String), ∀ p ∈ parts ++ [JVal.str t], ∃ s, p = JVal.str s := by
      intro t p hpm
      rcases List.mem_append.mp hpm with h1 | h2
      · exact hp p h1
      · exact ⟨t, List.mem_singleton.mp h2⟩
    match item with
    | .obj o =>
      by_cases hty : pyEq (jPyGet o "type") (.str "text") = true
      · simp only [wfTextBlock, hty, if_true] at hitem
        match hlk : jLookup o "text" with
        | some (.str s) =>
          have hge : jGetD o "text" (.str "") = .str s := by simp [jGetD, hlk]
          simp only [ftoList, hty, if_true, hge, pyLen, Bind.bind, Except.bind]
          by_cases hov : total + s.length > ml
          · rw [if_pos hov]
            by_cases hrem : ml - total > 100
            · rw [if_pos hrem]
              simp only [sliceConcat, Bind.bind, Except.bind]
              exact ⟨_, rfl, happ _⟩
            · rw [if_neg hrem]
              exact ⟨parts, rfl, hp⟩
          · rw [if_neg hov]
            exact ih hrest (total + s.length) (parts ++ [.str s]) (happ s)
        | none =>
          have hge : jGetD o "text" (.str "") = .str "" := by simp [jGetD, hlk]
          simp only [ftoList, hty, if_true, hge, pyLen, Bind.bind, Except.bind]
          by_cases hov : total + "".length > ml
          · rw [if_pos hov]
            by_cases hrem : ml - total > 100
            · rw [if_pos hrem]
              simp only [sliceConcat, Bind.bind, Except.bind]
              exact ⟨_, rfl, happ _⟩
            · rw [if_neg hrem]
              exact ⟨parts, rfl, hp⟩
          · rw [if_neg hov]
            exact ih hrest (total + "".length) (parts ++ [.str ""]) (happ "")
        | some (.null) => rw [hlk] at hitem; exact absurd hitem (by simp)
        | some (.bool b) => rw [hlk] at hitem; exact absurd hitem (by simp)
        | some (.num q) => rw [hlk] at hitem; exact absurd hitem (by simp)
        | some (.arr xs) => rw [hlk] at hitem; exact absurd hitem (by simp)
        | some (.obj oo) => rw [hlk] at hitem; exact absurd hitem (by simp)
      · by_cases him : pyEq (jPyGet o "type") (.str "image") = true
        · simp only [ftoList, hty, Bool.false_eq_true, if_false, him, if_true,
            Bool.not_eq_true]
          exact ih hrest total (parts ++ [.str "[Image output]"]) (happ _)
        · simp only [Bool.not_eq_true] at hty him
          simp only [ftoList, hty, him, Bool.false_eq_true, if_false]
          exact ih hrest _ _ (happ _)
    | .str s =>
      simp only [ftoList]
      by_cases hov : total + s.length > ml
      · rw [if_pos hov]
        by_cases hrem : ml - total > 100
        · rw [if_pos hrem]
          exact ⟨_, rfl, happ _⟩
        · rw [if_neg hrem]
          exact ⟨parts, rfl, hp⟩
      · rw [if_neg hov]
        exact ih hrest (total + s.length) (parts ++ [.str s]) (happ s)
    | .null => exact ih hrest total parts hp
    | .bool b => exact ih hrest total parts hp
    | .num q => exact ih hrest total parts hp
    | .arr xs => exact ih hrest total parts hp

theorem format_tool_output_ok (name c : JVal) (ml : Nat)
    (hwf : wfContentVal c = true) :
    ∃ s, format_tool_output name c ml = .ok s := by
  cases hres : format_tool_output name c ml with
  | ok r => exact ⟨r, rfl⟩
  | error e =>
    exfalso
    by_cases ht : pyTruthy c = true
    · match c with
      | .str s =>
        simp only [format_tool_output, ht, Bool.not_true, Bool.false_eq_true,
          if_false] at hres
        split at hres <;> simp at hres
      | .arr items =>
        obtain ⟨parts, hparts, hall⟩ := ftoList_ok ml items
          (by simpa [wfContentVal] using hwf) 0 [] (by simp)
        obtain ⟨s, hj⟩ := pyJoinNl_ok parts hall
        simp [format_tool_output, ht, hparts, hj, Bind.bind, Except.bind] at hres
      | .obj o =>
        simp only [format_tool_output, ht, Bool.not_true, Bool.false_eq_true,
          if_false] at hres
        split at hres
        · simp at hres
        · split at hres <;> simp at hres
      | .null => exact absurd ht (by simp [pyTruthy])
      | .bool b =>
        simp [format_tool_output, ht] at hres
      | .num q =>
        simp [format_tool_output, ht] at hres
    · simp [format_tool_output, ht] at hres

theorem toolSpanOf_ok (ctx : SpanCtx) (n : Nat) (td : ToolData)
    (hwf : wfToolData td = true) : ∃ sp, toolSpanOf ctx n td = .ok sp := by
  simp only [wfToolData, Bool.and_eq_true] at hwf
  obtain ⟨⟨hin, hout⟩, hmd⟩ := hwf
  obtain ⟨fin, hfin⟩ := format_tool_input_ok td.name td.input 4000 hin
  have hwOut : wfContentVal (optNull td.output) = true := by
    match hO : td.output with
    | none => rfl
    | some cc => rw [hO] at hout; exact hout
  obtain ⟨fout, hfout⟩ := format_tool_output_ok td.name (optNull td.output) 4000 hwOut
  cases hres : toolSpanOf ctx n td with
  | ok sp => exact ⟨sp, rfl⟩
  | error e =>
    exfalso
    simp only [toolSpanOf, hfin, hfout, Bind.bind, Except.bind] at hres
    match hm : td.result_metadata with
    | none => rw [hm] at hres; simp at hres
    | some md =>
      have hmd' : wfDuration md = true := by rw [hm] at hmd; exact hmd
      rw [hm] at hres
      simp only [] at hres
      by_cases hemp : md.isEmpty = true
      · simp [hemp] at hres
      · simp only [Bool.not_eq_true] at hemp
        rw [hemp] at hres
        simp only [Bool.not_false, if_true] at hres
        match hd : jLookup md "duration_ms" with
        | none =>
          have hnul : jPyGet md "duration_ms" = .null := by simp [jPyGet, jGetD, hd]
          rw [hnul] at hres
          simp [pyTruthy] at hres
        | some d =>
          have hget : jPyGet md "duration_ms" = d := by simp [jPyGet, jGetD, hd]
          rw [hget] at hres
          by_cases htd : pyTruthy d = true
          · have hq : (pyToQ d).isSome = true := by
              simp only [wfDuration, hd, htd, Bool.not_true, Bool.false_or] at hmd'
              exact hmd'
            obtain ⟨q, hq2⟩ := Option.isSome_iff_exists.mp hq
            simp [htd, hq2] at hres
          · simp only [Bool.not_eq_true] at htd
            rw [htd] at hres
            simp at hres

theorem toolSpans_ok (ctx : SpanCtx) :
    ∀ (m : ToolMap), m.all (fun p => wfToolData p.2) = true →
    ∀ (n : Nat) (acc : List JObj), ∃ r, toolSpans ctx m n acc = .ok r := by
  intro m
  induction m with
  | nil => intro _ n acc; exact ⟨acc, rfl⟩
  | cons p rest ih =>
    intro h n acc
    obtain ⟨k, td⟩ := p
    simp only [List.all_cons, Bool.and_eq_true] at h
    obtain ⟨sp, hsp⟩ := toolSpanOf_ok ctx (n + 1) td h.1
    obtain ⟨r, hr⟩ := ih h.2 (n + 1) (acc ++ [sp])
    exact ⟨r, by simp [toolSpans, hsp, hr, Bind.bind, Except.bind]⟩

theorem foldlM_except_ok {α β : Type} (P : α → Prop) (inv : β → Prop)
    (f : β → α → Except PyErr β)
    (hstep : ∀ b a, inv b → P a → ∃ r, f b a = .ok r ∧ inv r) :
    ∀ (l : List α), (∀ a ∈ l, P a) → ∀ b, inv b →
      ∃ r, l.foldlM f b = .ok r ∧ inv r := by
  intro l
  induction l with
  | nil => intro _ b hb; exact ⟨b, rfl, hb⟩
  | cons a rest ih =>
    intro hl b hb
    obtain ⟨b2, hf, hb2⟩ := hstep b a hb (hl a (List.mem_cons_self a rest))
    obtain ⟨r, hr, hinv⟩ := ih (fun x hx => hl x (List.mem_cons_of_mem _ hx)) b2 hb2
    refine ⟨r, ?_, hinv⟩
    rw [List.foldlM_cons, hf]
    simpa [Bind.bind, Except.bind] using hr

theorem tmSet_all_wf (m : ToolMap) (k : JVal) (v : ToolData)
    (hm : m.all (fun p => wfToolData p.2) = true) (hv : wfToolData v = true) :
    (tmSet m k v).all (fun p => wfToolData p.2) = true := by
  unfold tmSet
  by_cases hk : tmHasKey m k = true
  · rw [if_pos hk]
    simp only [List.all_eq_true] at hm ⊢
    intro p hp
    obtain ⟨q, hq, hpq⟩ := List.mem_map.mp hp
    by_cases he : pyEq q.1 k = true
    · rw [← hpq]
      simp only [he, if_true]
      exact hv
    · simp only [Bool.not_eq_true] at he
      rw [← hpq]
      simp only [he, Bool.false_eq_true, if_false]
      exact hm q hq
  · rw [if_neg hk]
    simp [List.all_append, hm, hv]

theorem tmUpdate_all_wf (m : ToolMap) (k : JVal) (f : ToolData → ToolData)
    (hm : m.all (fun p => wfToolData p.2) = true)
    (hf : ∀ td, wfToolData td = true → wfToolData (f td) = true) :
    (tmUpdate m k f).all (fun p => wfToolData p.2) = true := by
  unfold tmUpdate
  simp only [List.all_eq_true] at hm ⊢
  intro p hp
  obtain ⟨q, hq, hpq⟩ := List.mem_map.mp hp
  by_cases he : pyEq q.1 k = true
  · rw [← hpq]
    simp only [he, if_true]
    exact hf q.2 (hm q hq)
  · simp only [Bool.not_eq_true] at he
    rw [← hpq]
    simp only [he, Bool.false_eq_true, if_false]
    exact hm q hq

theorem resUpd_wf (md : JObj) (tr : JVal) (o : JObj) (td : ToolData)
    (htd : wfToolData td = true) (hmd : wfDuration md = true)
    (hc : wfContentVal (jPyGet o "content") = true) :
    wfToolData (resUpd md tr o td) = true := by
  simp only [wfToolData, Bool.and_eq_true] at htd ⊢
  exact ⟨⟨htd.1.1, by simp [resUpd, hc]⟩, by simp [resUpd, hmd]⟩

theorem get_tool_calls_wf (am : JVal) (h : wfAssistantMsg am = true) :
    ∃ tcs, get_tool_calls am = .ok tcs ∧
      ∀ tc ∈ tcs, jHashable (jGetD tc "id" (.str "")) = true ∧
        wfToolInput (jGetD tc "name" (.str "unknown"))
          (jGetD tc "input" (.obj [])) = true := by
  obtain ⟨c, hc, _, htb⟩ := wfAssistant_content am h
  match c with
  | .arr items =>
    refine ⟨items.filterMap (fun item =>
      match item with
      | .obj o =>
        if pyEq (jPyGet o "type") (.str "tool_use") then some o else none
      | _ => none), ?_, ?_⟩
    · simp [get_tool_calls, hc, Bind.bind, Except.bind]
    · intro tc htc
      obtain ⟨item, hmem, hf⟩ := List.mem_filterMap.mp htc
      have hwf : wfToolUseBlock item = true := by
        simp only [wfToolBlocks] at htb
        exact List.all_eq_true.mp htb item hmem
      match item with
      | .obj o =>
        by_cases hty : pyEq (jPyGet o "type") (.str "tool_use") = true
        · simp only [hty, if_true, Option.some.injEq] at hf
          simp only [wfToolUseBlock, hty, if_true, Bool.and_eq_true] at hwf
          rw [← hf]
          exact hwf
        · simp only [] at hf
          rw [if_neg hty] at hf
          exact Option.noConfusion hf
      | .null => simp at hf
      | .bool b => simp at hf
      | .num q => simp at hf
      | .str s => simp at hf
      | .arr xs => simp at hf
  | .null => exact ⟨[], by simp [get_tool_calls, hc, Bind.bind, Except.bind], by simp⟩
  | .bool b => exact ⟨[], by simp [get_tool_calls, hc, Bind.bind, Except.bind], by simp⟩
  | .num q => exact ⟨[], by simp [get_tool_calls, hc, Bind.bind, Except.bind], by simp⟩
  | .str s => exact ⟨[], by simp [get_tool_calls, hc, Bind.bind, Except.bind], by simp⟩
  | .obj o => exact ⟨[], by simp [get_tool_calls, hc, Bind.bind, Except.bind], by simp⟩

theorem addOneToolCall_wf (ts : JVal) (acc : ToolMap) (tc : JObj)
    (hacc : acc.all (fun p => wfToolData p.2) = true)
    (hh : jHashable (jGetD tc "id" (.str "")) = true)
    (hwi : wfToolInput (jGetD tc "name" (.str "unknown"))
      (jGetD tc "input" (.obj [])) = true) :
    ∃ r, addOneToolCall ts acc tc = .ok r ∧
      r.all (fun p => wfToolData p.2) = true := by
  refine ⟨tmSet acc (jGetD tc "id" (.str ""))
    ⟨jGetD tc "name" (.str "unknown"), jGetD tc "input" (.obj []),
      jGetD tc "id" (.str ""), ts, none, none, none⟩, ?_, ?_⟩
  · simp [addOneToolCall, hh]
  · apply tmSet_all_wf _ _ _ hacc
    simp [wfToolData, hwi]

theorem addToolCallsOf_wf (m : ToolMap) (am : JVal)
    (hm : m.all (fun p => wfToolData p.2) = true) (h : wfAssistantMsg am = true) :
    ∃ r, addToolCallsOf m am = .ok r ∧ r.all (fun p => wfToolData p.2) = true := by
  obtain ⟨tcs, htcs, hprop⟩ := get_tool_calls_wf am h
  have key : ∀ (ts : JVal), ∃ r, tcs.foldlM (addOneToolCall ts) m = .ok r ∧
      r.all (fun p => wfToolData p.2) = true :=
    fun ts => foldlM_except_ok
      (fun tc => jHashable (jGetD tc "id" (.str "")) = true ∧
        wfToolInput (jGetD tc "name" (.str "unknown"))
          (jGetD tc "input" (.obj [])) = true)
      (fun b => b.all (fun p => wfToolData p.2) = true)
      (addOneToolCall ts)
      (fun b a hb ha => addOneToolCall_wf ts b a hb ha.1 ha.2)
      tcs hprop m hm
  match am with
  | .obj o =>
    obtain ⟨r, hr, hinv⟩ := key (jPyGet o "timestamp")
    refine ⟨r, ?_, hinv⟩
    unfold addToolCallsOf
    rw [htcs]
    simpa [Bind.bind, Except.bind] using hr
  | .null =>
    obtain ⟨r, hr, hinv⟩ := key (JVal.null)
    refine ⟨r, ?_, hinv⟩
    unfold addToolCallsOf
    rw [htcs]
    simpa [Bind.bind, Except.bind] using hr
  | .bool b =>
    obtain ⟨r, hr, hinv⟩ := key (JVal.null)
    refine ⟨r, ?_, hinv⟩
    unfold addToolCallsOf
    rw [htcs]
    simpa [Bind.bind, Except.bind] using hr
  | .num q =>
    obtain ⟨r, hr, hinv⟩ := key (JVal.null)
    refine ⟨r, ?_, hinv⟩
    unfold addToolCallsOf
    rw [htcs]
    simpa [Bind.bind, Except.bind] using hr
  | .str s =>
    obtain ⟨r, hr, hinv⟩ := key (JVal.null)
    refine ⟨r, ?_, hinv⟩
    unfold addToolCallsOf
    rw [htcs]
    simpa [Bind.bind, Except.bind] using hr
  | .arr xs =>
    obtain ⟨r, hr, hinv⟩ := key (JVal.null)
    refine ⟨r, ?_, hinv⟩
    unfold addToolCallsOf
    rw [htcs]
    simpa [Bind.bind, Except.bind] using hr

theorem addToolCalls_fold_ok (ams : List JVal) (h : ams.all wfAssistantMsg = true)
    (m : ToolMap) (hm : m.all (fun p => wfToolData p.2) = true) :
    ∃ r, ams.foldlM addToolCallsOf m = .ok r ∧
      r.all (fun p => wfToolData p.2) = true :=
  foldlM_except_ok (fun am => wfAssistantMsg am = true)
    (fun b => b.all (fun p => wfToolData p.2) = true) addToolCallsOf
    (fun b a hb ha => addToolCallsOf_wf b a hb ha) ams
    (List.all_eq_true.mp h) m hm

theorem resultMetadataOf_ok (tr : JVal) (h : wfToolResultMsg tr = true) :
    ∃ md, resultMetadataOf tr = .ok md ∧ wfDuration md = true := by
  match tr with
  | .obj o =>
    simp only [wfToolResultMsg, Bool.and_eq_true] at h
    have htur := h.2
    by_cases ht : pyTruthy (jGetD o "toolUseResult" (.obj [])) = true
    · match hc : jGetD o "toolUseResult" (.obj []) with
      | .obj t =>
        rw [hc] at ht htur
        simp only [wfTUR, ht, Bool.not_true, Bool.false_eq_true, if_false] at htur
        cases hres : resultMetadataOf (.obj o) with
        | error e =>
          exfalso
          simp only [resultMetadataOf, hc, ht, Bool.not_true, Bool.false_eq_true,
            if_false] at hres
          simp at hres
        | ok md =>
          refine ⟨md, rfl, ?_⟩
          simp only [resultMetadataOf, hc, ht, Bool.not_true, Bool.false_eq_true,
            if_false, Except.ok.injEq] at hres
          rw [← hres]
          unfold wfDuration
          rw [jLookup_ifSet_ne _ _ _ _ _ (by decide),
            jLookup_ifSet_ne _ _ _ _ _ (by decide),
            jLookup_ifSet_ne _ _ _ _ _ (by decide)]
          by_cases hdm : jHasKey t "durationMs" = true
          · rw [if_pos hdm]
            match hlk : jLookup t "durationMs" with
            | some d =>
              have hget : jPyGet t "durationMs" = d := by simp [jPyGet, jGetD, hlk]
              rw [hget]
              rw [hlk] at htur
              simpa [jLookup] using htur
            | none =>
              exact absurd hdm (by simp [jHasKey, hlk])
          · rw [if_neg hdm]
            rfl
      | .null =>
        rw [hc] at ht
        exact absurd ht (by simp [pyTruthy])
      | .bool b =>
        rw [hc] at ht htur
        simp [wfTUR, ht] at htur
      | .num q =>
        rw [hc] at ht htur
        simp [wfTUR, ht] at htur
      | .str s =>
        rw [hc] at ht htur
        simp [wfTUR, ht] at htur
      | .arr xs =>
        rw [hc] at ht htur
        simp [wfTUR, ht] at htur
    · simp only [Bool.not_eq_true] at ht
      exact ⟨[], by simp [resultMetadataOf, ht], rfl⟩
  | .null => exact ⟨[], rfl, rfl⟩
  | .bool b => exact ⟨[], rfl, rfl⟩
  | .num q => exact ⟨[], rfl, rfl⟩
  | .str s => exact ⟨[], rfl, rfl⟩
  | .arr xs => exact ⟨[], rfl, rfl⟩

theorem applyResultItem_wf (md : JObj) (tr : JVal) (hmd : wfDuration md = true)
    (acc : ToolMap) (hacc : acc.all (fun p => wfToolData p.2) = true)
    (item : JVal) (hitem : wfResBlock item = true) :
    ∃ r, applyResultItem md tr acc item = .ok r ∧
      r.all (fun p => wfToolData p.2) = true := by
  match item with
  | .obj o =>
    by_cases hty : pyEq (jPyGet o "type") (.str "tool_result") = true
    · simp only [wfResBlock, hty, if_true, Bool.and_eq_true] at hitem
      obtain ⟨hh, hcw⟩ := hitem
      by_cases hk : tmHasKey acc (jPyGet o "tool_use_id") = true
      · refine ⟨tmUpdate acc (jPyGet o "tool_use_id") (resUpd md tr o), ?_, ?_⟩
        · simp [applyResultItem, hty, hh, hk]
        · exact tmUpdate_all_wf _ _ _ hacc
            (fun td htd => resUpd_wf md tr o td htd hmd hcw)
      · simp only [Bool.not_eq_true] at hk
        exact ⟨acc, by simp [applyResultItem, hty, hh, hk], hacc⟩
    · simp only [Bool.not_eq_true] at hty
      exact ⟨acc, by simp [applyResultItem, hty], hacc⟩
  | .null => exact ⟨acc, rfl, hacc⟩
  | .bool b => exact ⟨acc, rfl, hacc⟩
  | .num q => exact ⟨acc, rfl, hacc⟩
  | .str s => exact ⟨acc, rfl, hacc⟩
  | .arr xs => exact ⟨acc, rfl, hacc⟩

theorem applyResult_wf (m : ToolMap) (tr : JVal)
    (hm : m.all (fun p => wfToolData p.2) = true) (h : wfToolResultMsg tr = true) :
    ∃ r, applyResult m tr = .ok r ∧ r.all (fun p => wfToolData p.2) = true := by
  obtain ⟨c, hc, hcw⟩ := wfRes_content tr h
  obtain ⟨md, hmd, hmdw⟩ := resultMetadataOf_ok tr h
  match c with
  | .arr items =>
    obtain ⟨r, hr, hrw⟩ := foldlM_except_ok (fun it => wfResBlock it = true)
      (fun b => b.all (fun p => wfToolData p.2) = true) (applyResultItem md tr)
      (fun b a hb ha => applyResultItem_wf md tr hmdw b hb a ha) items
      (List.all_eq_true.mp (by simpa [wfResContent] using hcw)) m hm
    exact ⟨r, by simpa [applyResult, hc, hmd, Bind.bind, Except.bind] using hr, hrw⟩
  | .null => exact ⟨m, by simp [applyResult, hc, hmd, Bind.bind, Except.bind], hm⟩
  | .bool b => exact ⟨m, by simp [applyResult, hc, hmd, Bind.bind, Except.bind], hm⟩
  | .num q => exact ⟨m, by simp [applyResult, hc, hmd, Bind.bind, Except.bind], hm⟩
  | .str s => exact ⟨m, by simp [applyResult, hc, hmd, Bind.bind, Except.bind], hm⟩
  | .obj oo => exact ⟨m, by simp [applyResult, hc, hmd, Bind.bind, Except.bind], hm⟩

theorem applyResult_fold_ok (trs : List JVal) (h : trs.all wfToolResultMsg = true)
    (m : ToolMap) (hm : m.all (fun p => wfToolData p.2) = true) :
    ∃ r, trs.foldlM applyResult m = .ok r ∧
      r.all (fun p => wfToolData p.2) = true :=
  foldlM_except_ok (fun tr => wfToolResultMsg tr = true)
    (fun b => b.all (fun p => wfToolData p.2) = true) applyResult
    (fun b a hb ha => applyResult_wf b a hb ha) trs
    (List.all_eq_true.mp h) m hm

theorem thinkingSpans_ok (ctx : SpanCtx) :
    ∀ (ams : List JVal), ams.all wfAssistantMsg = true →
    ∀ (acc : List JObj), ∃ r, thinkingSpans ctx ams acc = .ok r := by
  intro ams
  induction ams with
  | nil => intro _ acc; exact ⟨acc, rfl⟩
  | cons am rest ih =>
    intro h acc
    simp only [List.all_cons, Bool.and_eq_true] at h
    obtain ⟨ham, hrest⟩ := h
    match am with
    | .obj o =>
      simp only [wfAssistantMsg] at ham
      match hm : jLookup o "message" with
      | some (.obj mo) =>
        simp only [thinkingSpans, hm]
        match hcc : jGetD mo "content" (.arr []) with
        | .arr items => exact ih hrest _
        | .null => exact ih hrest acc
        | .bool b => exact ih hrest acc
        | .num q => exact ih hrest acc
        | .str s => exact ih hrest acc
        | .obj oo => exact ih hrest acc
      | none =>
        simp only [thinkingSpans, hm]
        exact ih hrest acc
      | some (.null) => rw [hm] at ham; exact absurd ham (by simp)
      | some (.bool b) => rw [hm] at ham; exact absurd ham (by simp)
      | some (.num q) => rw [hm] at ham; exact absurd ham (by simp)
      | some (.str s) => rw [hm] at ham; exact absurd ham (by simp)
      | some (.arr xs) => rw [hm] at ham; exact absurd ham (by simp)
    | .null => exact ih hrest acc
    | .bool b => exact ih hrest acc
    | .num q => exact ih hrest acc
    | .str s => exact ih hrest acc
    | .arr xs => exact ih hrest acc

theorem create_total (iso : String → Option ℚ) (now session_id : String)
    (turn_num : Nat) (user_msg : JVal) (ams trs : List JVal)
    (hwf : wfTurn user_msg ams trs = true) :
    ∃ spans, create_keywordsai_spans iso now session_id turn_num user_msg ams trs =
      .ok spans := by
  simp only [wfTurn, Bool.and_eq_true] at hwf
  obtain ⟨⟨hu, has⟩, htr⟩ := hwf
  obtain ⟨cu, hcu, hcuw⟩ := wfUser_content user_msg hu
  obtain ⟨ut, hut⟩ := get_text_content_ok user_msg cu hcu hcuw
  obtain ⟨uts, huts⟩ := userTimestampOf_ok user_msg hu
  obtain ⟨fo, hfo⟩ := finalOutputOf_ok ams has
  obtain ⟨fi, hfi, hfiu⟩ := firstAssistantInfo_ok ams has
  simp only [create_keywordsai_spans]
  refine exists_ok_bind (fun _ => True) ⟨ut, hut, trivial⟩ (fun ut2 _ => ?_)
  refine exists_ok_bind (fun _ => True) ⟨uts, huts, trivial⟩ (fun uts2 _ => ?_)
  refine exists_ok_bind (fun _ => True) ⟨fo, hfo, trivial⟩ (fun fo2 _ => ?_)
  refine exists_ok_bind (fun f2 => wfUsage f2.usage = true) ⟨fi, hfi, hfiu⟩
    (fun fi2 hfi2 => ?_)
  refine exists_ok_bind (fun _ => True)
    (Exists.imp (fun r hr => ⟨hr, trivial⟩) (buildUsage_ok fi2.usage hfi2 _))
    (fun p _ => ?_)
  obtain ⟨uo, md⟩ := p
  refine exists_ok_bind (fun _ => True)
    (Exists.imp (fun r hr => ⟨hr, trivial⟩) (thinkingSpans_ok _ ams has []))
    (fun think _ => ?_)
  refine exists_ok_bind (fun mm => mm.all (fun p2 => wfToolData p2.2) = true)
    (addToolCalls_fold_ok ams has [] rfl) (fun tm0 htm0 => ?_)
  refine exists_ok_bind (fun mm => mm.all (fun p2 => wfToolData p2.2) = true)
    (applyResult_fold_ok trs htr tm0 htm0) (fun tm htm => ?_)
  refine exists_ok_bind (fun _ => True)
    (Exists.imp (fun r hr => ⟨hr, trivial⟩) (toolSpans_ok _ tm htm 0 []))
    (fun ts2 _ => ?_)
  exact ⟨_, rfl⟩

/-! ## Claim C9: failure semantics of the span compiler -/

/-- Counterexample to C9 as stated: a turn whose first assistant message
carries a truthy non-dict `usage` makes the compiler raise
`AttributeError` (`usage.get` on a string, source lines 363-366), rather
than degrade by omitting the optional usage fields. -/
theorem compiler_raises_counterexample :
    create_keywordsai_spans isoNone "NOW" "s" 1 (.obj [("type", .str "user")])
      [.obj [("message", .obj [("usage", .str "x")])]] [] =
      .error .attributeError := rfl

/-- Amended C9: on the well-formed input fragment `wfTurn` — user message a
dict whose `message`, when present, is a dict with join-safe content;
assistant messages with dict `message` values, join-safe content, hashable
`tool_use` ids, string contents for file-writing tool inputs and numeric
token counts in truthy `usage`; tool-result records with dict `message`
values, hashable `tool_use_id`s, formattable result contents and dict-or-
falsy `toolUseResult` with numeric `durationMs` — the compiler never
raises, and the root chat span's `model` falls back to the placeholder
`claude` when the first assistant message carries none. -/
theorem compiler_total_on_wf (iso : String → Option ℚ) (now session_id : String)
    (turn_num : Nat) (user_msg : JVal) (ams trs : List JVal)
    (hwf : wfTurn user_msg ams trs = true) :
    ∃ (chat : JObj) (rest : List JObj),
      create_keywordsai_spans iso now session_id turn_num user_msg ams trs =
        .ok (chat :: rest) ∧
      (modelAbsent ams.head? = true →
        jLookup chat "model" = some (.str "claude")) := by
  obtain ⟨spans, hok⟩ := create_total iso now session_id turn_num user_msg ams trs hwf
  obtain ⟨ctx, chat, think, tool, tmap0, tmap, fi, hs, h1, h2, h3, h4, h5, h6,
    h7, h8, hfi, h9, h10, h11, h12, hmodel⟩ :=
    create_decomp iso now session_id turn_num user_msg ams trs spans hok
  subst hs
  refine ⟨chat, think ++ tool, hok, fun hma => ?_⟩
  rw [hmodel, firstAssistantInfo_model ams.head? fi hfi hma]

/-- Witness for the amended C9: a concrete well-formed turn with a
model-less assistant message compiles to a span batch whose root chat span
carries the placeholder model. -/
theorem compiler_total_on_wf_witness :
    ∃ (chat : JObj) (rest : List JObj),
      create_keywordsai_spans isoNone "NOW" "sess" 1 cUser [c9asst] [cToolRes] =
        .ok (chat :: rest) ∧
      (modelAbsent [c9asst].head? = true →
        jLookup chat "model" = some (.str "claude")) :=
  compiler_total_on_wf isoNone "NOW" "sess" 1 cUser [c9asst] [cToolRes] (by rfl)
